import Mathlib

/-!
Verification of the multiplayer Tetris repository: a shallow embedding of
the client-side piece simulation engine (`game/tetris.js`, the `TetrisGame`
class) and of the server-side room / match logic (`server/roomManager.js`
with the multi-room handler, `server/socket.js`), together with theorems
settling the specification's claims about them.

Boards and piece matrices are `List (List Nat)`; JavaScript array indexing
(which yields `undefined` out of range) is modelled with `Option`.
-/

namespace Tetris

/-- A board or piece matrix: rows of cells, each cell a small integer. -/
abbrev Mat := List (List Nat)

/-- `CONSTANTS.COLS` -/
def COLS : Nat := 10

/-- `CONSTANTS.ROWS` -/
def ROWS : Nat := 20

/-- The 7 canonical piece shape matrices (`PIECES` in tetris.js). -/
def PIECES : List Mat :=
  [ [[0, 1, 0],
     [1, 1, 1],
     [0, 0, 0]],
    [[2, 2],
     [2, 2]],
    [[0, 3, 3],
     [3, 3, 0],
     [0, 0, 0]],
    [[4, 4, 0],
     [0, 4, 4],
     [0, 0, 0]],
    [[0, 5, 0, 0],
     [0, 5, 0, 0],
     [0, 5, 0, 0],
     [0, 5, 0, 0]],
    [[0, 6, 0],
     [0, 6, 0],
     [6, 6, 0]],
    [[0, 7, 0],
     [0, 7, 0],
     [0, 7, 7]] ]

/-- `createBoard()`: a 20 × 10 grid of zeros. -/
def createBoard : Mat := List.replicate ROWS (List.replicate COLS 0)

/-- Read cell `m[r][c]`, defaulting to 0 (used where indices are known in range). -/
def getCell (m : Mat) (r c : Nat) : Nat := (m.getD r []).getD c 0

/-- Write cell `m[r][c] := v` (no-op out of range, like `List.set`). -/
def setCell (m : Mat) (r c : Nat) (v : Nat) : Mat := m.set r ((m.getD r []).set c v)

/-- One iteration of the in-place swap in `_rotateMatrix`:
`[matrix[x][y], matrix[y][x]] = [matrix[y][x], matrix[x][y]]`. -/
def swapCells (m : Mat) (x y : Nat) : Mat :=
  let a := getCell m x y
  let b := getCell m y x
  setCell (setCell m x y b) y x a

/-- The transpose double loop of `_rotateMatrix`:
`for y in [0, len); for x in [0, y): swap`. -/
def transposeLoop (m : Mat) : Mat :=
  (List.range m.length).foldl
    (fun acc y => (List.range y).foldl (fun acc2 x => swapCells acc2 x y) acc) m

/-- `TetrisGame._rotateMatrix(matrix, dir)`: transpose in place, then reverse
each row (dir > 0) or reverse the row order (otherwise). -/
def rotateMatrix (m : Mat) (dir : Int) : Mat :=
  let t := transposeLoop m
  if dir > 0 then t.map List.reverse else t.reverse

/-- JavaScript array read `l[i]`: `undefined` (here `none`) when out of range,
including negative indices. -/
def jsIndex (l : List α) (i : Int) : Option α :=
  if h : 0 ≤ i ∧ i.toNat < l.length then some (l.get ⟨i.toNat, h.2⟩) else none

/-- The occupancy test `(board[r] && board[r][c]) !== 0` of `collide`: an
out-of-range row or column reads `undefined`, which is `!== 0`. -/
def jsOccupied (board : Mat) (r c : Int) : Bool :=
  match jsIndex board r with
  | none => true
  | some row =>
    match jsIndex row c with
    | none => true
    | some v => v != 0

/-- `TetrisGame.collide(board, piece, offset)` with `offset = (ox, oy)`. -/
def collide (board piece : Mat) (ox oy : Int) : Bool :=
  (List.range piece.length).any fun y =>
    (List.range (piece.getD y []).length).any fun x =>
      ((piece.getD y []).getD x 0 != 0) && jsOccupied board ((y : Int) + oy) ((x : Int) + ox)

/-- `TetrisGame.merge(board, piece, offset)`: write every nonzero piece cell
into the board at `(y + oy, x + ox)`. -/
def merge (board piece : Mat) (ox oy : Int) : Mat :=
  (List.range piece.length).foldl
    (fun acc y =>
      (List.range (piece.getD y []).length).foldl
        (fun acc2 x =>
          let v := (piece.getD y []).getD x 0
          if v ≠ 0 then setCell acc2 ((y : Int) + oy).toNat ((x : Int) + ox).toNat v
          else acc2)
        acc)
    board

/-- The full-row test of `arenaSweep`'s inner loop: every cell nonzero. -/
def isFullRow (row : List Nat) : Bool := row.all (· != 0)

/-- Number of full rows of a board; the termination measure of the sweep. -/
def countFull (b : Mat) : Nat := (b.filter isFullRow).length

lemma isFullRow_replicate_zero {n : Nat} (hn : n ≠ 0) :
    isFullRow (List.replicate n 0) = false := by
  cases n with
  | zero => exact absurd rfl hn
  | succ k => simp [isFullRow, List.replicate_succ]

lemma getD_mem {b : Mat} {y : Nat} (hy : y < b.length) : b.getD y [] ∈ b := by
  rw [List.getD_eq_getElem b [] hy]
  exact List.getElem_mem hy

lemma countFull_eraseIdx {b : Mat} {y : Nat} (hy : y < b.length)
    (hf : isFullRow (b.getD y []) = true) :
    countFull (b.eraseIdx y) + 1 = countFull b := by
  have hdecomp : b = b.take y ++ b[y] :: b.drop (y + 1) := by
    conv_lhs => rw [← List.take_append_drop y b]
    rw [List.drop_eq_getElem_cons hy]
  have herase : b.eraseIdx y = b.take y ++ b.drop (y + 1) :=
    List.eraseIdx_eq_take_drop_succ b y
  have hgd : b.getD y [] = b[y] := List.getD_eq_getElem b [] hy
  rw [hgd] at hf
  have hcons : List.filter isFullRow (b[y] :: b.drop (y + 1))
      = b[y] :: List.filter isFullRow (b.drop (y + 1)) := by
    rw [List.filter_cons, if_pos hf]
  unfold countFull
  rw [herase, List.filter_append]
  conv_rhs => rw [hdecomp]
  rw [List.filter_append, hcons]
  simp [List.length_append]
  omega

/-- The scan loop of `TetrisGame.arenaSweep`:
`outer: for (let y = board.length - 1; y > 0; --y)`, each full row being
spliced out, refilled with zeros and unshifted on top, with the same index
re-examined (`++y` cancelling the `--y`).  Returns the swept board and the
cleared-row count. -/
def sweepLoop (b : Mat) (y cnt : Nat) (hy : y < b.length)
    (hb : ∀ row ∈ b, row.length = COLS) : Mat × Nat :=
  if h0 : y = 0 then (b, cnt)
  else if hf : isFullRow (b.getD y []) = true then
    sweepLoop (List.replicate (b.getD y []).length 0 :: b.eraseIdx y) y (cnt + 1)
      (by
        have : (b.eraseIdx y).length = b.length - 1 := by
          rw [List.length_eraseIdx]
          simp [hy]
        simp only [List.length_cons, this]
        omega)
      (by
        intro row hrow
        rcases List.mem_cons.mp hrow with h | h
        · subst h
          rw [List.length_replicate]
          exact hb _ (getD_mem hy)
        · exact hb _ (List.mem_of_mem_eraseIdx h))
  else
    sweepLoop b (y - 1) cnt (by omega) hb
termination_by y + countFull b
decreasing_by
  · have hcount := countFull_eraseIdx hy hf
    have hlen : (b.getD y []).length = COLS := hb _ (getD_mem hy)
    have hnotfull : isFullRow (List.replicate (b.getD y []).length 0) = false := by
      apply isFullRow_replicate_zero
      rw [hlen]
      simp [COLS]
    have hnf2 : isFullRow (List.replicate ((b[y]?).getD []).length 0) = false := by
      rw [← List.getD_eq_getElem?_getD]
      exact hnotfull
    have : countFull (List.replicate (b.getD y []).length 0 :: b.eraseIdx y)
        = countFull (b.eraseIdx y) := by
      unfold countFull
      rw [List.filter_cons, if_neg (by simp [hnf2])]
    omega
  · omega

/-- The callbacks the engine can fire, in firing order. -/
inductive Event
  | scoreEv (v : Nat)
  | linesEv (n : Nat)
  | nextPieceEv
  | gameOverEv
  | boardEv
deriving DecidableEq, Repr

/-- The mutable fields of a `TetrisGame` driving the claims (canvas, audio
and callback slots are external collaborators and carry no game state). -/
structure GameState where
  board : Mat
  score : Nat
  piece : Mat
  nextPiece : Mat
  posX : Int
  posY : Int
  gameOver : Bool
  dropCounter : Nat
deriving DecidableEq, Repr

/-- Boards handled by the engine: 20 rows of 10 cells. -/
def WFBoard (b : Mat) : Prop := b.length = ROWS ∧ ∀ row ∈ b, row.length = COLS

instance : DecidablePred WFBoard := fun b => by
  unfold WFBoard
  infer_instance

/-- `TetrisGame.arenaSweep()`: run the scan loop from the bottom row, then
apply the scoring rule — `score += rowCount * 10`, one `onScore` with the new
total, and one `onLinesCleared` with `⌊new/100⌋ - ⌊old/100⌋` when positive. -/
def arenaSweep (st : GameState) (h : WFBoard st.board) : GameState × List Event :=
  let res := sweepLoop st.board (st.board.length - 1) 0
    (by have := h.1; rw [this]; simp [ROWS]) h.2
  let rowCount := res.2
  if rowCount > 0 then
    let oldScore := st.score
    let newScore := oldScore + rowCount * 10
    let attackLines := newScore / 100 - oldScore / 100
    ({ st with board := res.1, score := newScore },
      [Event.scoreEv newScore] ++
        (if attackLines > 0 then [Event.linesEv attackLines] else []))
  else ({ st with board := res.1 }, [])

lemma wf_setCell {b : Mat} (h : WFBoard b) (r c v : Nat) : WFBoard (setCell b r c v) := by
  unfold WFBoard setCell
  constructor
  · rw [List.length_set]
    exact h.1
  · intro row hrow
    rcases List.mem_or_eq_of_mem_set hrow with hmem | heq
    · exact h.2 _ hmem
    · subst heq
      rw [List.length_set]
      by_cases hr : r < b.length
      · exact h.2 _ (getD_mem hr)
      · exfalso
        have hset : b.set r ((b.getD r []).set c v) = b :=
          List.set_eq_of_length_le (by omega)
        rw [hset] at hrow
        have hlen := h.2 _ hrow
        rw [List.length_set, List.getD_eq_default _ _ (by omega)] at hlen
        simp [COLS] at hlen

lemma wf_foldl {α : Type} {f : Mat → α → Mat}
    (hf : ∀ m x, WFBoard m → WFBoard (f m x)) :
    ∀ (l : List α) (m : Mat), WFBoard m → WFBoard (l.foldl f m) := by
  intro l
  induction l with
  | nil => intro m hm; exact hm
  | cons a t ih => intro m hm; exact ih _ (hf m a hm)

lemma wf_merge {b : Mat} (piece : Mat) (ox oy : Int) (h : WFBoard b) :
    WFBoard (merge b piece ox oy) := by
  unfold merge
  apply wf_foldl _ _ _ h
  intro m y hm
  apply wf_foldl _ _ _ hm
  intro m2 x hm2
  dsimp only
  split
  · exact wf_setCell hm2 _ _ _
  · exact hm2

/-- `TetrisGame.drop()`: advance the piece one row; on collision revert the
increment, merge the piece, sweep, promote the next piece (the fresh
`randomPiece()` draw is the oracle argument `newNext`), fire
`onNextPiece`, respawn at (3,0), fire `onGameOver` when the spawned piece
collides at once, and fire `onBoardUpdate` last. -/
def drop (st : GameState) (newNext : Mat) (h : WFBoard st.board) :
    GameState × List Event :=
  let y1 := st.posY + 1
  if collide st.board st.piece st.posX y1 then
    let merged := merge st.board st.piece st.posX st.posY
    let res := arenaSweep { st with board := merged } (wf_merge st.piece st.posX st.posY h)
    let st1 := res.1
    let piece2 := st.nextPiece
    let over := collide st1.board piece2 3 0
    ({ st1 with
        piece := piece2, nextPiece := newNext, posX := 3, posY := 0,
        gameOver := over || st1.gameOver, dropCounter := 0 },
      res.2 ++ [Event.nextPieceEv] ++
        (if over then [Event.gameOverEv] else []) ++ [Event.boardEv])
  else ({ st with posY := y1, dropCounter := 0 }, [])

/-- The invariant carried by the wall-kick loop: offsets stay within one/two
columns of the rotated piece's width `w` (`piece[0].length`). -/
def KickInv (w : Nat) (offset : Int) : Prop :=
  (0 < offset → offset.natAbs ≤ w + 1) ∧ (offset < 0 → offset.natAbs ≤ w + 2)

/-- The offset update of the wall-kick loop:
`offset = -(offset + (offset > 0 ? 1 : -1))`. -/
def nextOffset (offset : Int) : Int := -(offset + (if offset > 0 then 1 else -1))

lemma natAbs_nextOffset (offset : Int) :
    (nextOffset offset).natAbs = offset.natAbs + 1 := by
  unfold nextOffset
  split <;> omega

lemma nextOffset_of_pos {offset : Int} (h : 0 < offset) :
    nextOffset offset = -(offset + 1) := by
  unfold nextOffset
  rw [if_pos h]

lemma nextOffset_of_nonpos {offset : Int} (h : offset ≤ 0) :
    nextOffset offset = 1 - offset := by
  unfold nextOffset
  rw [if_neg (by omega)]
  omega

lemma kickInv_next {w : Nat} {offset : Int} (h : KickInv w offset)
    (hguard : ¬ nextOffset offset > (w : Int)) :
    KickInv w (nextOffset offset) ∧ offset.natAbs < w + 2 := by
  have hna := natAbs_nextOffset offset
  rcases lt_trichotomy offset 0 with hlt | heq | hgt
  · have hv := nextOffset_of_nonpos (le_of_lt hlt)
    have h2 := h.2 hlt
    constructor
    · constructor
      · intro _
        omega
      · intro hneg
        omega
    · omega
  · subst heq
    have hv := nextOffset_of_nonpos le_rfl
    constructor
    · constructor
      · intro _
        omega
      · intro hneg
        omega
    · omega
  · have hv := nextOffset_of_pos hgt
    have h1 := h.1 hgt
    constructor
    · constructor
      · intro hpos
        omega
      · intro _
        omega
    · omega

/-- The `while (collide ...)` wall-kick loop of `TetrisGame.rotate`: shift
`pos.x` by `offset`, alternate and grow the offset, and when the offset
exceeds `piece[0].length`, rotate back and restore `pos.x`.  `piece` is the
already rotated matrix; the result is the final piece matrix and `pos.x`. -/
def kick (board piece : Mat) (dir : Int) (x y origX : Int) (offset : Int)
    (h : KickInv (piece.getD 0 []).length offset) : Mat × Int :=
  if collide board piece x y then
    if hguard : nextOffset offset > ((piece.getD 0 []).length : Int) then
      (rotateMatrix piece (-dir), origX)
    else
      kick board piece dir (x + offset) y origX (nextOffset offset)
        (kickInv_next h hguard).1
  else (piece, x)
termination_by (piece.getD 0 []).length + 2 - offset.natAbs
decreasing_by
  have hna := natAbs_nextOffset offset
  have hlt := (kickInv_next h hguard).2
  omega

/-- `TetrisGame.rotate(dir)`: rotate the active piece in place, then run the
wall-kick loop starting at `offset = 1` from the saved `pos.x`. -/
def rotateOp (board piece : Mat) (x y : Int) (dir : Int) : Mat × Int :=
  let rotated := rotateMatrix piece dir
  kick board rotated dir x y x 1 (by constructor <;> intro h <;> omega)

end Tetris

namespace Server

/-- Room status: `'waiting' | 'playing' | 'finished'`. -/
inductive RStatus
  | waiting
  | playing
  | finished
deriving DecidableEq, Repr

/-- A player entry of a multi (battle) room. -/
structure MPlayer where
  score : Nat
  alive : Bool
  rank : Option Nat
deriving DecidableEq, Repr

/-- A multi room (`multiRooms` entry): the roster is kept in insertion order,
the fields the elimination logic reads. -/
structure MRoom where
  players : List MPlayer
  status : RStatus
  alivePlayers : Nat
deriving DecidableEq, Repr

/-- The survivor pass of `checkGameEnd`: find the first alive player, mark it
not alive with rank 1, and stop (`break`). -/
def markFirstAlive : List MPlayer → List MPlayer
  | [] => []
  | p :: ps =>
    if p.alive then { p with alive := false, rank := some 1 } :: ps
    else p :: markFirstAlive ps

/-- `checkGameEnd(room)`: when at most one player is alive while playing,
finish the match and give the remaining alive player rank 1. -/
def checkGameEnd (room : MRoom) : MRoom :=
  if room.alivePlayers ≤ 1 ∧ room.status = RStatus.playing then
    { room with status := RStatus.finished, players := markFirstAlive room.players }
  else room

/-- The `game_over` branch of `multi_game_action`, reported by the player at
roster index `i`: if still alive, mark not alive, assign
`rank = alivePlayers` before decrementing, decrement, then `checkGameEnd`. -/
def gameOverReport (room : MRoom) (i : Nat) : MRoom :=
  match room.players.get? i with
  | none => room
  | some p =>
    if p.alive then
      checkGameEnd
        { room with
            players := room.players.set i
              { p with alive := false, rank := some room.alivePlayers },
            alivePlayers := room.alivePlayers - 1 }
    else room

/-- A match run to completion: the sequence of `game_over` reports, folded. -/
def runReports (room : MRoom) (reports : List Nat) : MRoom :=
  reports.foldl gameOverReport room

/-- The room state right after `start_multi_game` with `M` players: status
playing, everyone alive with no rank, `alivePlayers = playerCount`. -/
def startRoom (M : Nat) : MRoom :=
  { players := List.replicate M { score := 0, alive := true, rank := none },
    status := RStatus.playing,
    alivePlayers := M }

/-- The ranks assigned so far, in roster order. -/
def ranksOf (room : MRoom) : List Nat := room.players.filterMap MPlayer.rank

/-- Number of roster entries whose alive flag is set. -/
def aliveCount (room : MRoom) : Nat := (room.players.filter MPlayer.alive).length

/-- `selectAttackTarget`'s candidate filter:
`Object.entries(room.players).filter(([id, p]) => id !== attacker && p.alive)`. -/
def attackCandidates (entries : List (Nat × MPlayer)) (attacker : Nat) :
    List (Nat × MPlayer) :=
  entries.filter (fun e => e.1 != attacker && e.2.alive)

/-- `targets.reduce((sum, [_, p]) => sum + p.score + 1, 0)`. -/
def totalScore (targets : List (Nat × MPlayer)) : ℚ :=
  targets.foldl (fun sum e => sum + (e.2.score : ℚ) + 1) 0

/-- The weighted subtraction loop:
`for ([id, p] of targets) { rand -= (p.score + 1); if (rand <= 0) return id }`,
`none` when the iteration exhausts the list. -/
def walkLoop (rand : ℚ) : List (Nat × MPlayer) → Option Nat
  | [] => none
  | e :: rest =>
    if rand - ((e.2.score : ℚ) + 1) ≤ 0 then some e.1
    else walkLoop (rand - ((e.2.score : ℚ) + 1)) rest

/-- `selectAttackTarget(room, attacker)`.  The `Math.random()` draws are the
oracles `roll` (the 0.7 branch test) and `u` (the in-branch uniform draw in
`[0,1)`). -/
def selectAttackTarget (entries : List (Nat × MPlayer)) (attacker : Nat)
    (roll u : ℚ) : Option Nat :=
  let targets := attackCandidates entries attacker
  if targets.length = 0 then none
  else if roll < 7 / 10 then
    (targets.get? (⌊u * targets.length⌋).toNat).map Prod.fst
  else
    match walkLoop (u * totalScore targets) targets with
    | some id => some id
    | none => targets.getLast?.map Prod.fst

/-- Follows the spec's words (§4.4, to be compared with `walkLoop` from the
source): subtracting each candidate's weight in roster order until the
remainder is ≤ 0 selects the first candidate whose cumulative weight
reaches the drawn value. -/
def specWeightedPickFrom (rand acc : ℚ) : List (Nat × MPlayer) → Option Nat
  | [] => none
  | e :: rest =>
    if rand ≤ acc + ((e.2.score : ℚ) + 1) then some e.1
    else specWeightedPickFrom rand (acc + ((e.2.score : ℚ) + 1)) rest

/-- Follows the spec's words (§4.4): the first candidate, in roster order,
whose cumulative weight is at least the drawn value. -/
def specWeightedPick (rand : ℚ) (targets : List (Nat × MPlayer)) : Option Nat :=
  specWeightedPickFrom rand 0 targets

/-- A duel room of `socket.js`: the two-entry roster in insertion order
(`Object.keys(room.players)`), the per-pairing win tally (`room.scores`,
an object created lazily), and the status field. -/
structure DuelRoom where
  players : List Nat
  scores : List (Nat × Nat)
  status : RStatus
deriving DecidableEq, Repr

/-- Read `room.scores[id] || 0` (a missing entry counts 0). -/
def getTally (scores : List (Nat × Nat)) (id : Nat) : Nat :=
  match scores.lookup id with
  | some n => n
  | none => 0

/-- Write `room.scores[id] = v` on the lazily created object. -/
def setTally : List (Nat × Nat) → Nat → Nat → List (Nat × Nat)
  | [], id, v => [(id, v)]
  | (k, n) :: rest, id, v =>
    if k = id then (id, v) :: rest else (k, n) :: setTally rest id v

/-- The `game_over` branch of the duel `game_action` handler: the winner is
`Object.keys(room.players).find(id => id !== socket.id)`, whose session win
tally is incremented; nothing else of the room changes. -/
def duelGameOver (room : DuelRoom) (reporter : Nat) : DuelRoom × Option Nat :=
  match room.players.find? (fun id => id != reporter) with
  | none => (room, none)
  | some winnerId =>
    ({ room with
        scores := setTally room.scores winnerId (getTally room.scores winnerId + 1) },
      some winnerId)

/-- Events emitted by the duel `game_reset` handler. -/
inductive DuelEvent
  | resetEv
  | gameReadyEv (seed : Nat)
  | systemMsgEv
deriving DecidableEq, Repr

/-- The duel `game_reset` handler: set status to playing, emit `game_reset`,
draw a fresh seed (the `Math.random()` draw is the oracle `seedDraw`) and
emit `game_ready` with it, then a system chat message. -/
def duelReset (room : DuelRoom) (seedDraw : Nat) : DuelRoom × List DuelEvent :=
  ({ room with status := RStatus.playing },
    [DuelEvent.resetEv, DuelEvent.gameReadyEv seedDraw, DuelEvent.systemMsgEv])

end Server

namespace SeededEngine

/-- Modelled from the spec: the seeded client engine (`game/tetris.js`
constructed as `new TetrisGame(canvas, isRemote, seed)`) is not among the
packaged sources — only its callers are (`gameManager.js`, `main.js`,
`mainMulti.js`, `mainSingle.js` all pass a shared integer seed).  Per §3
and the glossary, each client seeds its own deterministic pseudo-random
generator with the shared seed; we fix a concrete linear-congruential
state transition for that generator. -/
def nextRng (s : Nat) : Nat := (s * 1103515245 + 12345) % 2147483648

/-- Modelled from the spec: one draw of the seeded generator picks one of
the 7 canonical shapes uniformly with replacement. -/
def drawPiece (s : Nat) : Tetris.Mat :=
  Tetris.PIECES.getD (s % Tetris.PIECES.length) []

/-- Inputs a running engine consumes.  Piece locks draw from the seeded
generator; player moves and garbage injection (whose hole column comes from
a separate unseeded source, passed as the oracle argument) touch only the
board. -/
inductive EngInput
  | lockTick
  | move (dir : Int)
  | garbage (lines hole : Nat)
deriving DecidableEq, Repr

/-- A running engine: seeded generator state, the log of piece shapes drawn
so far, and the board. -/
structure EngState where
  rng : Nat
  pieceLog : List Tetris.Mat
  board : Tetris.Mat
deriving DecidableEq, Repr

/-- Modelled from the spec: one engine step.  `eff` is the board effect of
an input (movement, merging, garbage shifting) — piece generation must not
depend on it, so it is kept abstract and universally quantified in the
determinism theorem. -/
def engStep (eff : EngInput → Tetris.Mat → Tetris.Mat)
    (st : EngState) (inp : EngInput) : EngState :=
  match inp with
  | EngInput.lockTick =>
      { st with
          rng := nextRng st.rng,
          pieceLog := st.pieceLog ++ [drawPiece st.rng],
          board := eff inp st.board }
  | _ => { st with board := eff inp st.board }

/-- An engine freshly constructed/reset with a seed. -/
def engInit (seed : Nat) : EngState :=
  { rng := seed, pieceLog := [], board := Tetris.createBoard }

/-- A whole run: fold the inputs from the seeded initial state. -/
def engRun (eff : EngInput → Tetris.Mat → Tetris.Mat) (seed : Nat)
    (inputs : List EngInput) : EngState :=
  inputs.foldl (engStep eff) (engInit seed)

end SeededEngine

namespace Tetris

/-- A square matrix: every row as long as the list of rows (an invariant of
all piece matrices: the 7 canonical shapes and their rotations). -/
def IsSquare (m : Mat) : Prop := ∀ row ∈ m, row.length = m.length

instance : DecidablePred IsSquare := fun m => by
  unfold IsSquare
  infer_instance

/-- Four successive 90° rotations with one direction. -/
def rot4 (m : Mat) (dir : Int) : Mat :=
  rotateMatrix (rotateMatrix (rotateMatrix (rotateMatrix m dir) dir) dir) dir

/-- A board whose only full row is row 0 (all ten cells nonzero); rows 1–19
are empty. -/
def topRowBoard : Mat := List.replicate COLS 1 :: List.replicate 19 (List.replicate COLS 0)

/-- Engine state sitting on `topRowBoard`. -/
def topRowState : GameState :=
  { board := topRowBoard, score := 0,
    piece := [[2, 2], [2, 2]], nextPiece := [[2, 2], [2, 2]],
    posX := 0, posY := 0, gameOver := false, dropCounter := 0 }

/-- Event classifier: score callbacks. -/
def isScoreEv : Event → Bool
  | Event.scoreEv _ => true
  | _ => false

/-- Event classifier: the value of a lines-cleared-for-attack callback. -/
def linesVal : Event → Option Nat
  | Event.linesEv n => some n
  | _ => none

/-- Event classifier: the three lifecycle callbacks of `drop`. -/
def isLifecycleEv : Event → Bool
  | Event.nextPieceEv => true
  | Event.gameOverEv => true
  | Event.boardEv => true
  | _ => false

/-- A board whose cells (0,3) and (0,4) are occupied, everything else empty:
a fresh O piece spawning at (3,0) collides at once. -/
def spawnBlockedBoard : Mat :=
  [0, 0, 0, 1, 1, 0, 0, 0, 0, 0] :: List.replicate 19 (List.replicate COLS 0)

/-- Engine state about to lock an O piece at the bottom-left of
`spawnBlockedBoard`: the next `drop()` locks it and the spawned piece
collides immediately. -/
def lockingState : GameState :=
  { board := spawnBlockedBoard, score := 0,
    piece := [[2, 2], [2, 2]], nextPiece := [[2, 2], [2, 2]],
    posX := 0, posY := 18, gameOver := false, dropCounter := 0 }

end Tetris

namespace Server

/-- Concrete roster for exercising the attack router: attacker 0, two alive
candidates 1 and 2, one dead player 3. -/
def sampleEntries : List (Nat × MPlayer) :=
  [ (0, { score := 40, alive := true, rank := none }),
    (1, { score := 0, alive := true, rank := none }),
    (2, { score := 30, alive := true, rank := none }),
    (3, { score := 10, alive := false, rank := some 4 }) ]

/-- A concrete duel room between sockets 5 and 9. -/
def sampleDuel : DuelRoom :=
  { players := [5, 9], scores := [(5, 2)], status := RStatus.playing }

/-- Invariant of a battle room while the match is running: the alive
counter matches the roster, at least two players remain, alive players are
unranked, and the ranks already assigned are exactly
`{alivePlayers+1, …, M}`. -/
def PlayingInv (M : Nat) (room : MRoom) : Prop :=
  room.players.length = M
  ∧ room.status = RStatus.playing
  ∧ aliveCount room = room.alivePlayers
  ∧ 2 ≤ room.alivePlayers
  ∧ (∀ p ∈ room.players, p.alive = true → p.rank = none)
  ∧ (ranksOf room).Perm (List.range' (room.alivePlayers + 1) (M - room.alivePlayers))

/-- Invariant of a finished battle room: nobody is alive and the assigned
ranks are exactly `{1, …, M}`. -/
def FinishedInv (M : Nat) (room : MRoom) : Prop :=
  room.players.length = M
  ∧ room.status = RStatus.finished
  ∧ aliveCount room = 0
  ∧ (ranksOf room).Perm (List.range' 1 M)

end Server

/-- Well-formedness of `topRowBoard` (used to state C3's closed theorem). -/
def topRowWF : Tetris.WFBoard Tetris.topRowBoard := by decide

/-- Well-formedness of `spawnBlockedBoard` (used by C4's closed statements). -/
def lockingWF : Tetris.WFBoard Tetris.spawnBlockedBoard := by decide

/-- A board whose only full row is the bottom row 19. -/
def oneFullBoard : Tetris.Mat :=
  List.replicate 19 (List.replicate Tetris.COLS 0) ++ [List.replicate Tetris.COLS 3]

/-- Engine state on `oneFullBoard` with score 95: the next sweep crosses
the 100-point threshold once. -/
def oneFullState : Tetris.GameState :=
  { board := oneFullBoard, score := 95,
    piece := [[2, 2], [2, 2]], nextPiece := [[2, 2], [2, 2]],
    posX := 0, posY := 0, gameOver := false, dropCounter := 0 }

/-- Well-formedness of `oneFullBoard` (used by C5's witness). -/
def oneFullWF : Tetris.WFBoard oneFullBoard := by decide

/-! ## Theorems -/

/-- C7: for each of the 7 canonical piece matrices and either rotation
direction, applying the 90° matrix rotation four times with that direction
returns the matrix to its original value. -/
theorem pieces_rotate_four_times_identity :
    ∀ p ∈ Tetris.PIECES, Tetris.rot4 p 1 = p ∧ Tetris.rot4 p (-1) = p := by
  decide

/-- Witness for C7 at the T piece, clockwise. -/
theorem pieces_rotate_four_times_identity_witness :
    [[0,1,0],[1,1,1],[0,0,0]] ∈ Tetris.PIECES ∧
      Tetris.rot4 [[0,1,0],[1,1,1],[0,0,0]] 1 = [[0,1,0],[1,1,1],[0,0,0]] :=
  ⟨by decide,
    (pieces_rotate_four_times_identity [[0,1,0],[1,1,1],[0,0,0]] (by decide)).1⟩

lemma engRun_pieceLog_aux (eff : SeededEngine.EngInput → Tetris.Mat → Tetris.Mat) :
    ∀ (inputs : List SeededEngine.EngInput) (st : SeededEngine.EngState),
      (inputs.foldl (SeededEngine.engStep eff) st).pieceLog
        = st.pieceLog ++
            (List.range (inputs.count SeededEngine.EngInput.lockTick)).map
              (fun k => SeededEngine.drawPiece (SeededEngine.nextRng^[k] st.rng)) := by
  intro inputs
  induction inputs with
  | nil => intro st; simp
  | cons a rest ih =>
    intro st
    have hshift : ∀ s : Nat,
        (List.range (rest.count SeededEngine.EngInput.lockTick + 1)).map
            (fun k => SeededEngine.drawPiece (SeededEngine.nextRng^[k] s))
          = SeededEngine.drawPiece s ::
              (List.range (rest.count SeededEngine.EngInput.lockTick)).map
                (fun k => SeededEngine.drawPiece (SeededEngine.nextRng^[k] (SeededEngine.nextRng s))) := by
      intro s
      rw [List.range_succ_eq_map, List.map_cons, List.map_map]
      simp [Function.iterate_succ_apply]
    cases a with
    | lockTick =>
      rw [List.foldl_cons, ih]
      simp [SeededEngine.engStep, List.count_cons, hshift st.rng]
    | move d =>
      rw [List.foldl_cons, ih]
      simp [SeededEngine.engStep, List.count_cons]
    | garbage l hole =>
      rw [List.foldl_cons, ih]
      simp [SeededEngine.engStep, List.count_cons]

/-- C1: two Piece Simulation Engine instances seeded with the same seed
generate the same piece shape at every index, whatever (possibly different)
board effects and input sequences drive them. -/
theorem seeded_piece_sequences_agree
    (seed : Nat) (eff₁ eff₂ : SeededEngine.EngInput → Tetris.Mat → Tetris.Mat)
    (τ₁ τ₂ : List SeededEngine.EngInput) (i : Nat) (m₁ m₂ : Tetris.Mat)
    (h₁ : (SeededEngine.engRun eff₁ seed τ₁).pieceLog.get? i = some m₁)
    (h₂ : (SeededEngine.engRun eff₂ seed τ₂).pieceLog.get? i = some m₂) :
    m₁ = m₂ := by
  unfold SeededEngine.engRun at h₁ h₂
  rw [engRun_pieceLog_aux] at h₁ h₂
  simp only [SeededEngine.engInit, List.nil_append, List.get?_map] at h₁ h₂
  obtain ⟨k₁, hk₁, hm₁⟩ := Option.map_eq_some'.mp h₁
  obtain ⟨k₂, hk₂, hm₂⟩ := Option.map_eq_some'.mp h₂
  obtain ⟨hlt₁, -⟩ := List.get?_eq_some.mp hk₁
  obtain ⟨hlt₂, -⟩ := List.get?_eq_some.mp hk₂
  rw [List.length_range] at hlt₁ hlt₂
  have hki : k₁ = i := by
    have hr := List.get?_range hlt₁
    rw [hr] at hk₁
    exact (Option.some.injEq _ _ ▸ hk₁).symm
  have hki2 : k₂ = i := by
    have hr := List.get?_range hlt₂
    rw [hr] at hk₂
    exact (Option.some.injEq _ _ ▸ hk₂).symm
  subst hki
  subst hki2
  rw [← hm₁, ← hm₂]

/-- Witness for C1: seed 7, one run locking at once, the other moving first. -/
theorem seeded_piece_sequences_agree_witness :
    ((SeededEngine.engRun (fun _ b => b) 7 [SeededEngine.EngInput.lockTick]).pieceLog.get? 0
        = some [[0,1,0],[1,1,1],[0,0,0]]) ∧
    ((SeededEngine.engRun (fun _ b => b) 7
        [SeededEngine.EngInput.move 1, SeededEngine.EngInput.lockTick]).pieceLog.get? 0
        = some [[0,1,0],[1,1,1],[0,0,0]]) ∧
    ([[0,1,0],[1,1,1],[0,0,0]] : Tetris.Mat) = [[0,1,0],[1,1,1],[0,0,0]] :=
  ⟨by decide, by decide,
    seeded_piece_sequences_agree 7 (fun _ b => b) (fun _ b => b)
      [SeededEngine.EngInput.lockTick]
      [SeededEngine.EngInput.move 1, SeededEngine.EngInput.lockTick] 0 _ _
      (by decide) (by decide)⟩

lemma getTally_setTally_self (s : List (Nat × Nat)) (id v : Nat) :
    Server.getTally (Server.setTally s id v) id = v := by
  induction s with
  | nil => simp [Server.setTally, Server.getTally, List.lookup]
  | cons e rest ih =>
    obtain ⟨k, n⟩ := e
    by_cases hk : k = id
    · subst hk
      simp [Server.setTally, Server.getTally, List.lookup]
    · have hbeq : (id == k) = false := by simpa using Ne.symm hk
      simpa [Server.setTally, hk, Server.getTally, List.lookup, hbeq] using ih

lemma getTally_setTally_ne (s : List (Nat × Nat)) {id j : Nat} (v : Nat)
    (hj : j ≠ id) :
    Server.getTally (Server.setTally s id v) j = Server.getTally s j := by
  have hbid : (j == id) = false := by simpa using hj
  induction s with
  | nil =>
    simp [Server.setTally, Server.getTally, List.lookup, hbid]
  | cons e rest ih =>
    obtain ⟨k, n⟩ := e
    by_cases hk : k = id
    · subst hk
      simp [Server.setTally, Server.getTally, List.lookup, hbid]
    · by_cases hjk : j = k
      · subst hjk
        simp [Server.setTally, hk, Server.getTally, List.lookup]
      · have hbjk : (j == k) = false := by simpa using hjk
        simpa [Server.setTally, hk, Server.getTally, List.lookup, hbjk] using ih

/-- C9: in a duel room the first `game_over` report from either roster
member unconditionally designates the other member as winner — independent
of scores or status — and increments only that winner's session win tally;
a reset sets the room straight back to playing and immediately re-emits a
start (`game_ready`) event carrying the freshly drawn seed, never an idle
waiting state. -/
theorem duel_game_over_and_reset (room : Server.DuelRoom) (a b reporter seedDraw : Nat)
    (hp : room.players = [a, b]) (hab : a ≠ b) (hrep : reporter = a ∨ reporter = b) :
    (Server.duelGameOver room reporter).2 = some (if reporter = a then b else a)
    ∧ Server.getTally (Server.duelGameOver room reporter).1.scores
        (if reporter = a then b else a)
        = Server.getTally room.scores (if reporter = a then b else a) + 1
    ∧ Server.getTally (Server.duelGameOver room reporter).1.scores reporter
        = Server.getTally room.scores reporter
    ∧ (Server.duelGameOver room reporter).1.status = room.status
    ∧ (Server.duelGameOver room reporter).1.players = room.players
    ∧ (Server.duelReset room seedDraw).1.status = Server.RStatus.playing
    ∧ (Server.duelReset room seedDraw).1.status ≠ Server.RStatus.waiting
    ∧ (Server.duelReset room seedDraw).2
        = [Server.DuelEvent.resetEv, Server.DuelEvent.gameReadyEv seedDraw,
            Server.DuelEvent.systemMsgEv] := by
  have hfind : room.players.find? (fun id => id != reporter)
      = some (if reporter = a then b else a) := by
    rw [hp]
    rcases hrep with h | h
    · subst h
      rw [if_pos rfl]
      have h2 : (b != reporter) = true := by simpa using Ne.symm hab
      simp [List.find?, h2]
    · subst h
      rw [if_neg (Ne.symm hab)]
      have h2 : (a != reporter) = true := by simpa using hab
      simp [List.find?, h2]
  unfold Server.duelGameOver
  rw [hfind]
  have hwne : reporter ≠ (if reporter = a then b else a) := by
    rcases hrep with h | h
    · subst h
      rw [if_pos rfl]
      exact hab
    · subst h
      rw [if_neg (Ne.symm hab)]
      exact Ne.symm hab
  refine ⟨rfl, ?_, ?_, rfl, rfl, rfl, by simp [Server.duelReset], rfl⟩
  · exact getTally_setTally_self _ _ _
  · exact getTally_setTally_ne _ _ hwne

/-- Witness for C9: socket 5 reports game over in `sampleDuel`; socket 9
wins and its tally rises from 0 to 1; a reset with seed 77 re-emits
`game_ready 77` with status playing. -/
theorem duel_game_over_and_reset_witness :
    (Server.duelGameOver Server.sampleDuel 5).2 = some 9
    ∧ Server.getTally (Server.duelGameOver Server.sampleDuel 5).1.scores 9
        = Server.getTally Server.sampleDuel.scores 9 + 1
    ∧ (Server.duelReset Server.sampleDuel 77).1.status = Server.RStatus.playing :=
  have h := duel_game_over_and_reset Server.sampleDuel 5 9 5 77 rfl (by decide)
    (Or.inl rfl)
  ⟨h.1, h.2.1, h.2.2.2.2.2.1⟩

lemma sweepLoop_no_full :
    ∀ (y : Nat) (b : Tetris.Mat) (cnt : Nat) (hy : y < b.length)
      (hb : ∀ row ∈ b, row.length = Tetris.COLS),
      (∀ j < y + 1, 1 ≤ j → Tetris.isFullRow (b.getD j []) = false) →
      Tetris.sweepLoop b y cnt hy hb = (b, cnt) := by
  intro y
  induction y with
  | zero =>
    intro b cnt hy hb _
    rw [Tetris.sweepLoop]
    simp
  | succ k ih =>
    intro b cnt hy hb hnf
    rw [Tetris.sweepLoop]
    rw [dif_neg (by omega : ¬(k + 1 = 0))]
    rw [dif_neg (by
      have hfl := hnf (k + 1) (by omega) (by omega)
      simp only [hfl]
      decide)]
    have hk : k + 1 - 1 = k := by omega
    have := ih b cnt (by omega) hb (by
      intro j hj h1
      exact hnf j (by omega) h1)
    convert this using 2

lemma arenaSweep_of_rowCount_zero {st : Tetris.GameState} {h : Tetris.WFBoard st.board}
    {b' : Tetris.Mat}
    (hy : st.board.length - 1 < st.board.length)
    (hsl : Tetris.sweepLoop st.board (st.board.length - 1) 0 hy h.2 = (b', 0)) :
    Tetris.arenaSweep st h = ({ st with board := b' }, []) := by
  unfold Tetris.arenaSweep
  rw [hsl]
  simp

lemma arenaSweep_of_rowCount_pos {st : Tetris.GameState} {h : Tetris.WFBoard st.board}
    {b' : Tetris.Mat} {k : Nat}
    (hy : st.board.length - 1 < st.board.length)
    (hsl : Tetris.sweepLoop st.board (st.board.length - 1) 0 hy h.2 = (b', k))
    (hk : 0 < k) :
    Tetris.arenaSweep st h
      = ({ st with board := b', score := st.score + k * 10 },
          [Tetris.Event.scoreEv (st.score + k * 10)] ++
            (if (st.score + k * 10) / 100 - st.score / 100 > 0 then
              [Tetris.Event.linesEv ((st.score + k * 10) / 100 - st.score / 100)]
            else [])) := by
  unfold Tetris.arenaSweep
  rw [hsl]
  simp [hk]

/-- C3: the sweep's scan bound (`for y = rows-1; y > 0; --y`) never
examines row 0: on a board whose only full row is row 0, `arenaSweep`
removes nothing, changes neither board nor score, and fires no callback,
although row 0 has all ten cells nonzero. -/
theorem sweep_never_clears_lone_top_row :
    Tetris.isFullRow (Tetris.topRowBoard.getD 0 []) = true
    ∧ Tetris.arenaSweep Tetris.topRowState topRowWF = (Tetris.topRowState, []) := by
  have hy : Tetris.topRowState.board.length - 1 < Tetris.topRowState.board.length := by
    decide
  have hsl : Tetris.sweepLoop Tetris.topRowState.board
      (Tetris.topRowState.board.length - 1) 0 hy topRowWF.2
      = (Tetris.topRowState.board, 0) :=
    sweepLoop_no_full _ _ _ hy topRowWF.2 (by decide)
  exact ⟨by decide, arenaSweep_of_rowCount_zero hy hsl⟩

/-- C5: a sweep that clears `k > 0` full rows raises the score by exactly
`10·k` in one single score callback carrying the new total — never `k`
separate updates — and the lines-cleared-for-attack units it emits sum to
exactly `⌊new/100⌋ − ⌊old/100⌋`. -/
theorem sweep_scoring_single_update (st : Tetris.GameState) (h : Tetris.WFBoard st.board)
    (hy : st.board.length - 1 < st.board.length) (b' : Tetris.Mat) (k : Nat)
    (hsl : Tetris.sweepLoop st.board (st.board.length - 1) 0 hy h.2 = (b', k))
    (hk : 0 < k) :
    (Tetris.arenaSweep st h).1.score = st.score + 10 * k
    ∧ (Tetris.arenaSweep st h).2.filter Tetris.isScoreEv
        = [Tetris.Event.scoreEv (st.score + 10 * k)]
    ∧ ((Tetris.arenaSweep st h).2.filterMap Tetris.linesVal).sum
        = (st.score + 10 * k) / 100 - st.score / 100 := by
  have ha := @arenaSweep_of_rowCount_pos st h b' k hy hsl hk
  rw [ha]
  have hmul : k * 10 = 10 * k := Nat.mul_comm k 10
  refine ⟨by simp [hmul], ?_, ?_⟩
  · by_cases hattack : (st.score + k * 10) / 100 - st.score / 100 > 0
    · rw [if_pos hattack]
      simp [Tetris.isScoreEv, hmul]
    · rw [if_neg hattack]
      simp [Tetris.isScoreEv, hmul]
  · by_cases hattack : (st.score + k * 10) / 100 - st.score / 100 > 0
    · rw [if_pos hattack]
      simp [Tetris.linesVal, Tetris.isScoreEv, hmul]
    · rw [if_neg hattack]
      simp only [List.append_nil, List.filterMap]
      simp [Tetris.linesVal, hmul]
      omega

/-- Witness for C5: sweeping `oneFullState` clears one row, lifts the score
from 95 to 105 in one callback, and emits one attack unit. -/
theorem sweep_scoring_single_update_witness :
    (Tetris.arenaSweep oneFullState oneFullWF).1.score = 95 + 10 * 1
    ∧ (Tetris.arenaSweep oneFullState oneFullWF).2.filter Tetris.isScoreEv
        = [Tetris.Event.scoreEv 105]
    ∧ ((Tetris.arenaSweep oneFullState oneFullWF).2.filterMap Tetris.linesVal).sum
        = 1 := by
  have hy : oneFullState.board.length - 1 < oneFullState.board.length := by
    decide
  have hsl : Tetris.sweepLoop oneFullState.board
      (oneFullState.board.length - 1) 0 hy oneFullWF.2
      = (List.replicate 20 (List.replicate Tetris.COLS 0), 1) := by
    rw [Tetris.sweepLoop]
    rw [dif_neg (by decide), dif_pos (by decide)]
    exact sweepLoop_no_full _ _ _ _ _ (by decide)
  have h := sweep_scoring_single_update oneFullState oneFullWF hy _ 1 hsl
    (by omega)
  exact ⟨h.1, h.2.1, h.2.2⟩

lemma arenaSweep_events_kind (st : Tetris.GameState) (h : Tetris.WFBoard st.board) :
    ∀ e ∈ (Tetris.arenaSweep st h).2,
      (∃ v, e = Tetris.Event.scoreEv v) ∨ (∃ n, e = Tetris.Event.linesEv n) := by
  intro e he
  have hy : st.board.length - 1 < st.board.length := by
    have h1 := h.1
    rw [h1]
    simp [Tetris.ROWS]
  rcases hsl : Tetris.sweepLoop st.board (st.board.length - 1) 0 hy h.2 with ⟨b', k⟩
  rcases Nat.eq_zero_or_pos k with hk | hk
  · subst hk
    rw [arenaSweep_of_rowCount_zero hy hsl] at he
    simp at he
  · rw [arenaSweep_of_rowCount_pos hy hsl hk] at he
    rcases List.mem_append.mp he with hm | hm
    · rcases List.mem_singleton.mp hm with rfl
      exact Or.inl ⟨_, rfl⟩
    · by_cases hattack : (st.score + k * 10) / 100 - st.score / 100 > 0
      · rw [if_pos hattack] at hm
        rcases List.mem_singleton.mp hm with rfl
        exact Or.inr ⟨_, rfl⟩
      · rw [if_neg hattack] at hm
        simp at hm

/-- C4 (amended): when `drop` locks a piece, the lifecycle callbacks fire as
next-piece-changed first, then — if the newly spawned piece immediately
collides — game-over, and board-changed last (sweep score events precede
all three). -/
theorem drop_lock_event_order (st : Tetris.GameState) (newNext : Tetris.Mat)
    (h : Tetris.WFBoard st.board)
    (hlock : Tetris.collide st.board st.piece st.posX (st.posY + 1) = true) :
    ((Tetris.drop st newNext h).2.filter Tetris.isLifecycleEv)
      = [Tetris.Event.nextPieceEv] ++
          (if Tetris.collide
              (Tetris.arenaSweep
                { st with board := Tetris.merge st.board st.piece st.posX st.posY }
                (Tetris.wf_merge st.piece st.posX st.posY h)).1.board
              st.nextPiece 3 0
            then [Tetris.Event.gameOverEv] else []) ++ [Tetris.Event.boardEv] := by
  have hkind := arenaSweep_events_kind
    { st with board := Tetris.merge st.board st.piece st.posX st.posY }
    (Tetris.wf_merge st.piece st.posX st.posY h)
  unfold Tetris.drop
  rw [if_pos hlock]
  simp only [List.filter_append]
  have hnil : (Tetris.arenaSweep
      { st with board := Tetris.merge st.board st.piece st.posX st.posY }
      (Tetris.wf_merge st.piece st.posX st.posY h)).2.filter Tetris.isLifecycleEv
      = [] := by
    rw [List.filter_eq_nil_iff]
    intro e he
    rcases hkind e he with ⟨v, rfl⟩ | ⟨n, rfl⟩ <;> simp [Tetris.isLifecycleEv]
  rw [hnil]
  by_cases hover : Tetris.collide
      (Tetris.arenaSweep
        { st with board := Tetris.merge st.board st.piece st.posX st.posY }
        (Tetris.wf_merge st.piece st.posX st.posY h)).1.board st.nextPiece 3 0
  · rw [if_pos hover]
    simp [Tetris.isLifecycleEv]
  · rw [if_neg hover]
    simp [Tetris.isLifecycleEv]

lemma lockingMergedSweep :
    Tetris.arenaSweep
      { board := Tetris.merge Tetris.lockingState.board Tetris.lockingState.piece
          Tetris.lockingState.posX Tetris.lockingState.posY,
        score := Tetris.lockingState.score, piece := Tetris.lockingState.piece,
        nextPiece := Tetris.lockingState.nextPiece, posX := Tetris.lockingState.posX,
        posY := Tetris.lockingState.posY, gameOver := Tetris.lockingState.gameOver,
        dropCounter := Tetris.lockingState.dropCounter }
      (Tetris.wf_merge Tetris.lockingState.piece Tetris.lockingState.posX
        Tetris.lockingState.posY lockingWF)
      = ({ board := Tetris.merge Tetris.lockingState.board Tetris.lockingState.piece
               Tetris.lockingState.posX Tetris.lockingState.posY,
           score := Tetris.lockingState.score, piece := Tetris.lockingState.piece,
           nextPiece := Tetris.lockingState.nextPiece, posX := Tetris.lockingState.posX,
           posY := Tetris.lockingState.posY, gameOver := Tetris.lockingState.gameOver,
           dropCounter := Tetris.lockingState.dropCounter }, []) := by
  refine arenaSweep_of_rowCount_zero (by decide) ?_
  exact sweepLoop_no_full _ _ _ (by decide) _ (by decide)

/-- C4, counterexample to the claimed order: on `lockingState` the lock
fires game-over, yet game-over is not the last callback — board-changed
follows it. -/
theorem drop_lock_game_over_not_last :
    Tetris.Event.gameOverEv ∈ (Tetris.drop Tetris.lockingState [[2,2],[2,2]] lockingWF).2
    ∧ (Tetris.drop Tetris.lockingState [[2,2],[2,2]] lockingWF).2.getLast?
        ≠ some Tetris.Event.gameOverEv := by
  have hdrop : (Tetris.drop Tetris.lockingState [[2,2],[2,2]] lockingWF).2
      = [Tetris.Event.nextPieceEv, Tetris.Event.gameOverEv, Tetris.Event.boardEv] := by
    unfold Tetris.drop
    rw [if_pos (by decide)]
    dsimp only
    rw [lockingMergedSweep]
    decide
  rw [hdrop]
  exact ⟨by decide, by decide⟩

/-- Witness for the amended C4 theorem at `lockingState`: the filtered
lifecycle trace is next-piece, game-over, board. -/
theorem drop_lock_event_order_witness :
    ((Tetris.drop Tetris.lockingState [[2,2],[2,2]] lockingWF).2.filter Tetris.isLifecycleEv)
      = [Tetris.Event.nextPieceEv, Tetris.Event.gameOverEv, Tetris.Event.boardEv] := by
  have h := drop_lock_event_order Tetris.lockingState [[2,2],[2,2]] lockingWF (by decide)
  rw [h, lockingMergedSweep]
  decide

lemma jsIndex_neg {α : Type} {l : List α} {i : Int}
    (h : ¬(0 ≤ i ∧ i.toNat < l.length)) : Tetris.jsIndex l i = none := by
  unfold Tetris.jsIndex
  rw [dif_neg h]

lemma jsIndex_pos {α : Type} [Inhabited α] {l : List α} {i : Int}
    (h : 0 ≤ i ∧ i.toNat < l.length) :
    Tetris.jsIndex l i = some (l.getD i.toNat default) := by
  unfold Tetris.jsIndex
  rw [dif_pos h]
  congr 1
  rw [List.getD_eq_getElem _ _ h.2]
  simp [List.get_eq_getElem]

lemma jsOccupied_row_oob {board : Tetris.Mat} {r c : Int}
    (h : ¬(0 ≤ r ∧ r.toNat < board.length)) :
    Tetris.jsOccupied board r c = true := by
  unfold Tetris.jsOccupied
  rw [jsIndex_neg h]

lemma jsOccupied_col_oob {board : Tetris.Mat} {r c : Int}
    (hr : 0 ≤ r ∧ r.toNat < board.length)
    (hc : ¬(0 ≤ c ∧ c.toNat < (board.getD r.toNat []).length)) :
    Tetris.jsOccupied board r c = true := by
  unfold Tetris.jsOccupied
  rw [jsIndex_pos hr]
  rw [show (default : List Nat) = [] from rfl]
  dsimp only
  rw [jsIndex_neg hc]

lemma jsOccupied_false_bounds {board : Tetris.Mat} {r c : Int}
    (h : Tetris.jsOccupied board r c = false) :
    (0 ≤ r ∧ r.toNat < board.length)
    ∧ (0 ≤ c ∧ c.toNat < (board.getD r.toNat []).length) := by
  by_cases hr : 0 ≤ r ∧ r.toNat < board.length
  · by_cases hc : 0 ≤ c ∧ c.toNat < (board.getD r.toNat []).length
    · exact ⟨hr, hc⟩
    · rw [jsOccupied_col_oob hr hc] at h
      cases h
  · rw [jsOccupied_row_oob hr] at h
    cases h

lemma collide_true_of_occupied {board piece : Tetris.Mat} {ox oy : Int} {y x : Nat}
    (hy : y < piece.length) (hx : x < (piece.getD y []).length)
    (hcell : (piece.getD y []).getD x 0 ≠ 0)
    (hocc : Tetris.jsOccupied board ((y : Int) + oy) ((x : Int) + ox) = true) :
    Tetris.collide board piece ox oy = true := by
  unfold Tetris.collide
  rw [List.any_eq_true]
  refine ⟨y, List.mem_range.mpr hy, ?_⟩
  rw [List.any_eq_true]
  refine ⟨x, List.mem_range.mpr hx, ?_⟩
  rw [Bool.and_eq_true]
  exact ⟨by simpa using hcell, hocc⟩

lemma setCell_shape (m : Tetris.Mat) (r c v : Nat) :
    (Tetris.setCell m r c v).length = m.length
    ∧ ∀ i, ((Tetris.setCell m r c v).getD i []).length = (m.getD i []).length := by
  constructor
  · exact List.length_set m r _
  · intro i
    unfold Tetris.setCell
    by_cases hir : i = r
    · subst hir
      by_cases hlt : i < m.length
      · rw [List.getD_eq_getElem?_getD, List.getElem?_set_self hlt]
        rw [List.getD_eq_getElem _ _ hlt]
        simp
      · rw [List.set_eq_of_length_le (by omega)]
    · rw [List.getD_eq_getElem?_getD, List.getElem?_set_ne (Ne.symm hir),
        ← List.getD_eq_getElem?_getD]

lemma foldl_preserves {α β : Type} {P : α → Prop} {f : α → β → α}
    (hf : ∀ a b, P a → P (f a b)) :
    ∀ (l : List β) (a : α), P a → P (l.foldl f a) := by
  intro l
  induction l with
  | nil => intro a ha; exact ha
  | cons b t ih => intro a ha; exact ih _ (hf a b ha)

lemma merge_shape (board piece : Tetris.Mat) (ox oy : Int) :
    (Tetris.merge board piece ox oy).length = board.length
    ∧ ∀ i, ((Tetris.merge board piece ox oy).getD i []).length
        = (board.getD i []).length := by
  have step : ∀ (y : Nat) (m : Tetris.Mat),
      (m.length = board.length ∧ ∀ i, (m.getD i []).length = (board.getD i []).length) →
      (((List.range (piece.getD y []).length).foldl
          (fun acc2 x =>
            let v := (piece.getD y []).getD x 0
            if v ≠ 0 then
              Tetris.setCell acc2 ((y : Int) + oy).toNat ((x : Int) + ox).toNat v
            else acc2) m).length = board.length
        ∧ ∀ i, (((List.range (piece.getD y []).length).foldl
            (fun acc2 x =>
              let v := (piece.getD y []).getD x 0
              if v ≠ 0 then
                Tetris.setCell acc2 ((y : Int) + oy).toNat ((x : Int) + ox).toNat v
              else acc2) m).getD i []).length = (board.getD i []).length) := by
    intro y m hm
    exact @foldl_preserves Tetris.Mat Nat
      (fun mm => mm.length = board.length ∧
        ∀ i, (mm.getD i []).length = (board.getD i []).length)
      _
      (fun m2 x hm2 => by
        dsimp only
        split
        · have hs := setCell_shape m2 ((y : Int) + oy).toNat ((x : Int) + ox).toNat
            ((piece.getD y []).getD x 0)
          exact ⟨hs.1.trans hm2.1, fun i => (hs.2 i).trans (hm2.2 i)⟩
        · exact hm2)
      _ m hm
  unfold Tetris.merge
  exact @foldl_preserves Tetris.Mat Nat
    (fun mm => mm.length = board.length ∧
      ∀ i, (mm.getD i []).length = (board.getD i []).length)
    _ (fun m y hm => step y m hm) _ board ⟨rfl, fun _ => rfl⟩

/-- C10: the collision check is total and conservative — a nonzero piece
cell whose target row or column index falls outside the board (negative or
past the dimension) forces `collide = true`; consequently, on any position
where `collide` is false, `merge` writes every nonzero piece cell to an
in-bounds board cell and preserves the board's dimensions. -/
theorem collide_conservative_merge_inbounds (board piece : Tetris.Mat) (ox oy : Int) :
    (∀ y x, y < piece.length → x < (piece.getD y []).length →
        (piece.getD y []).getD x 0 ≠ 0 →
        (¬(0 ≤ (y : Int) + oy ∧ ((y : Int) + oy).toNat < board.length) ∨
          ¬(0 ≤ (x : Int) + ox ∧
            ((x : Int) + ox).toNat < (board.getD ((y : Int) + oy).toNat []).length)) →
        Tetris.collide board piece ox oy = true)
    ∧ (Tetris.collide board piece ox oy = false →
        (∀ y x, y < piece.length → x < (piece.getD y []).length →
            (piece.getD y []).getD x 0 ≠ 0 →
            (0 ≤ (y : Int) + oy ∧ ((y : Int) + oy).toNat < board.length) ∧
              (0 ≤ (x : Int) + ox ∧
                ((x : Int) + ox).toNat < (board.getD ((y : Int) + oy).toNat []).length))
        ∧ (Tetris.merge board piece ox oy).length = board.length
        ∧ ∀ i, ((Tetris.merge board piece ox oy).getD i []).length
            = (board.getD i []).length) := by
  constructor
  · intro y x hy hx hcell hoob
    apply collide_true_of_occupied hy hx hcell
    by_cases hr : 0 ≤ (y : Int) + oy ∧ ((y : Int) + oy).toNat < board.length
    · rcases hoob with h | h
      · exact absurd hr h
      · exact jsOccupied_col_oob hr h
    · exact jsOccupied_row_oob hr
  · intro hcol
    refine ⟨?_, (merge_shape board piece ox oy).1, (merge_shape board piece ox oy).2⟩
    intro y x hy hx hcell
    have hocc : Tetris.jsOccupied board ((y : Int) + oy) ((x : Int) + ox) = false := by
      by_contra hocc
      rw [Bool.not_eq_false] at hocc
      rw [collide_true_of_occupied hy hx hcell hocc] at hcol
      cases hcol
    exact jsOccupied_false_bounds hocc

/-- Witness for C10: an O piece at column −1 on the empty board collides
(out of the left edge), and at the spawn position it does not, with merge
preserving the 20×10 dimensions. -/
theorem collide_conservative_merge_inbounds_witness :
    Tetris.collide Tetris.createBoard [[2,2],[2,2]] (-1) 0 = true
    ∧ (Tetris.merge Tetris.createBoard [[2,2],[2,2]] 3 0).length
        = Tetris.createBoard.length :=
  ⟨(collide_conservative_merge_inbounds Tetris.createBoard [[2,2],[2,2]] (-1) 0).1
      0 0 (by decide) (by decide) (by decide) (Or.inr (by decide)),
    ((collide_conservative_merge_inbounds Tetris.createBoard [[2,2],[2,2]] 3 0).2
      (by decide)).2.1⟩

lemma walkLoop_eq_specFrom :
    ∀ (l : List (Nat × Server.MPlayer)) (rand acc : ℚ),
      Server.walkLoop (rand - acc) l = Server.specWeightedPickFrom rand acc l := by
  intro l
  induction l with
  | nil => intro rand acc; rfl
  | cons e rest ih =>
    intro rand acc
    unfold Server.walkLoop Server.specWeightedPickFrom
    by_cases hc : rand ≤ acc + ((e.2.score : ℚ) + 1)
    · rw [if_pos (by linarith), if_pos hc]
    · rw [if_neg (by intro h; exact hc (by linarith)), if_neg hc]
      have : rand - acc - ((e.2.score : ℚ) + 1) = rand - (acc + ((e.2.score : ℚ) + 1)) := by
        ring
      rw [this]
      exact ih rand (acc + ((e.2.score : ℚ) + 1))

lemma walkLoop_eq_spec (l : List (Nat × Server.MPlayer)) (rand : ℚ) :
    Server.walkLoop rand l = Server.specWeightedPick rand l := by
  have h := walkLoop_eq_specFrom l rand 0
  rw [sub_zero] at h
  exact h

lemma totalScore_foldl_init :
    ∀ (l : List (Nat × Server.MPlayer)) (init : ℚ),
      l.foldl (fun sum e => sum + (e.2.score : ℚ) + 1) init
        = init + Server.totalScore l := by
  intro l
  induction l with
  | nil => intro init; simp [Server.totalScore]
  | cons e rest ih =>
    intro init
    unfold Server.totalScore
    rw [List.foldl_cons, List.foldl_cons, ih, ih]
    ring

lemma totalScore_cons (e : Nat × Server.MPlayer) (l : List (Nat × Server.MPlayer)) :
    Server.totalScore (e :: l) = ((e.2.score : ℚ) + 1) + Server.totalScore l := by
  conv_lhs => unfold Server.totalScore
  rw [List.foldl_cons, totalScore_foldl_init]
  ring

lemma totalScore_ge_length (l : List (Nat × Server.MPlayer)) :
    (l.length : ℚ) ≤ Server.totalScore l := by
  induction l with
  | nil => simp [Server.totalScore]
  | cons e rest ih =>
    rw [totalScore_cons, List.length_cons]
    have : (0 : ℚ) ≤ (e.2.score : ℚ) := Nat.cast_nonneg _
    push_cast
    linarith

lemma walkLoop_some_of_le :
    ∀ (l : List (Nat × Server.MPlayer)) (rand : ℚ),
      rand ≤ Server.totalScore l → l ≠ [] →
      ∃ e ∈ l, Server.walkLoop rand l = some e.1 := by
  intro l
  induction l with
  | nil => intro rand _ hne; exact absurd rfl hne
  | cons e rest ih =>
    intro rand hle _
    by_cases hc : rand - ((e.2.score : ℚ) + 1) ≤ 0
    · refine ⟨e, List.mem_cons_self e rest, ?_⟩
      unfold Server.walkLoop
      rw [if_pos hc]
    · by_cases hrest : rest = []
      · subst hrest
        rw [totalScore_cons] at hle
        have h0 : Server.totalScore [] = 0 := rfl
        rw [h0] at hle
        exact absurd (by linarith : rand - ((e.2.score : ℚ) + 1) ≤ 0) hc
      · rw [totalScore_cons] at hle
        obtain ⟨e', he', hw⟩ := ih (rand - ((e.2.score : ℚ) + 1)) (by linarith) hrest
        refine ⟨e', List.mem_cons_of_mem e he', ?_⟩
        unfold Server.walkLoop
        rw [if_neg hc]
        exact hw

/-- C8: the attack router's candidate set is exactly the alive roster
entries other than the attacker; an empty candidate set delivers nothing;
every candidate's weight `score + 1` is strictly positive; on the weighted
branch a target is always selected from the candidate set (with a uniform
draw in `[0,1)` the subtraction loop itself fires); and the source's
subtraction loop equals the spec's first-cumulative-weight-reaching pick. -/
theorem attack_target_selection (entries : List (Nat × Server.MPlayer))
    (attacker : Nat) (roll u : ℚ) (hu0 : 0 ≤ u) (hu1 : u < 1) :
    (∀ e, e ∈ Server.attackCandidates entries attacker ↔
        (e ∈ entries ∧ e.1 ≠ attacker ∧ e.2.alive = true))
    ∧ (Server.attackCandidates entries attacker = [] →
        Server.selectAttackTarget entries attacker roll u = none)
    ∧ (∀ e ∈ Server.attackCandidates entries attacker, (0 : ℚ) < (e.2.score : ℚ) + 1)
    ∧ (¬ roll < 7 / 10 → Server.attackCandidates entries attacker ≠ [] →
        ∃ e ∈ Server.attackCandidates entries attacker,
          Server.selectAttackTarget entries attacker roll u = some e.1)
    ∧ (∀ rand : ℚ,
        Server.walkLoop rand (Server.attackCandidates entries attacker)
          = Server.specWeightedPick rand (Server.attackCandidates entries attacker)) := by
  refine ⟨?_, ?_, ?_, ?_, fun rand => walkLoop_eq_spec _ rand⟩
  · intro e
    unfold Server.attackCandidates
    rw [List.mem_filter]
    simp [bne_iff_ne]
  · intro hempty
    unfold Server.selectAttackTarget
    dsimp only
    rw [hempty]
    rfl
  · intro e _
    have : (0 : ℚ) ≤ (e.2.score : ℚ) := Nat.cast_nonneg _
    linarith
  · intro hroll hne
    have hlen : 0 < (Server.attackCandidates entries attacker).length :=
      List.length_pos.mpr hne
    have htot : (1 : ℚ) ≤ Server.totalScore (Server.attackCandidates entries attacker) := by
      have hge := totalScore_ge_length (Server.attackCandidates entries attacker)
      have : (1 : ℚ) ≤ ((Server.attackCandidates entries attacker).length : ℚ) := by
        exact_mod_cast hlen
      linarith
    have hrand : u * Server.totalScore (Server.attackCandidates entries attacker)
        ≤ Server.totalScore (Server.attackCandidates entries attacker) := by
      nlinarith
    obtain ⟨e, he, hw⟩ := walkLoop_some_of_le (Server.attackCandidates entries attacker)
      (u * Server.totalScore (Server.attackCandidates entries attacker)) hrand hne
    refine ⟨e, he, ?_⟩
    unfold Server.selectAttackTarget
    dsimp only
    rw [if_neg (by omega), if_neg hroll, hw]

/-- Witness for C8: in `sampleEntries` with attacker 0 and a weighted-branch
roll, some alive candidate is selected. -/
theorem attack_target_selection_witness :
    ∃ e ∈ Server.attackCandidates Server.sampleEntries 0,
      Server.selectAttackTarget Server.sampleEntries 0 (4 / 5) (1 / 2) = some e.1 :=
  (attack_target_selection Server.sampleEntries 0 (4 / 5) (1 / 2)
      (by norm_num) (by norm_num)).2.2.2.1
    (by norm_num) (by decide)

lemma rank_set_perm {a : Nat} :
    ∀ (l : List Server.MPlayer) (i : Nat) (p p' : Server.MPlayer),
      l.get? i = some p → p.rank = none → p'.rank = some a →
      ((l.set i p').filterMap Server.MPlayer.rank).Perm
        (a :: l.filterMap Server.MPlayer.rank) := by
  intro l
  induction l with
  | nil => intro i p p' hget _ _; simp at hget
  | cons q t ih =>
    intro i p p' hget hnone hrank
    cases i with
    | zero =>
      simp only [List.get?_cons_zero, Option.some.injEq] at hget
      subst hget
      rw [List.set_cons_zero]
      rw [List.filterMap_cons_some hrank, List.filterMap_cons_none hnone]
    | succ j =>
      rw [List.get?_cons_succ] at hget
      rw [List.set_cons_succ]
      have hperm := ih j p p' hget hnone hrank
      cases hq : q.rank with
      | none =>
        rw [List.filterMap_cons_none hq, List.filterMap_cons_none hq]
        exact hperm
      | some r =>
        rw [List.filterMap_cons_some hq, List.filterMap_cons_some hq]
        exact (hperm.cons r).trans (List.Perm.swap a r _)

lemma alive_set_count :
    ∀ (l : List Server.MPlayer) (i : Nat) (p p' : Server.MPlayer),
      l.get? i = some p → p.alive = true → p'.alive = false →
      ((l.set i p').filter Server.MPlayer.alive).length
        = (l.filter Server.MPlayer.alive).length - 1 := by
  intro l
  induction l with
  | nil => intro i p p' hget _ _; simp at hget
  | cons q t ih =>
    intro i p p' hget halive hdead
    cases i with
    | zero =>
      simp only [List.get?_cons_zero, Option.some.injEq] at hget
      subst hget
      rw [List.set_cons_zero]
      rw [List.filter_cons_of_neg (by simp [hdead]), List.filter_cons_of_pos (by simp [halive])]
      simp
    | succ j =>
      rw [List.get?_cons_succ] at hget
      rw [List.set_cons_succ]
      have hrec := ih j p p' hget halive hdead
      have hpos : 0 < (t.filter Server.MPlayer.alive).length := by
        have hmem : p ∈ t := List.get?_mem hget
        have : p ∈ t.filter Server.MPlayer.alive := List.mem_filter.mpr ⟨hmem, halive⟩
        exact List.length_pos.mpr (List.ne_nil_of_mem this)
      cases hq : q.alive with
      | false =>
        rw [List.filter_cons_of_neg (by simp [hq]), List.filter_cons_of_neg (by simp [hq])]
        exact hrec
      | true =>
        rw [List.filter_cons_of_pos (by simp [hq]), List.filter_cons_of_pos (by simp [hq])]
        simp only [List.length_cons, hrec]
        omega

lemma markFirstAlive_length : ∀ (l : List Server.MPlayer),
    (Server.markFirstAlive l).length = l.length := by
  intro l
  induction l with
  | nil => rfl
  | cons p t ih =>
    unfold Server.markFirstAlive
    cases hp : p.alive with
    | true => simp [hp]
    | false => simp [hp, ih]

lemma markFirstAlive_spec :
    ∀ (l : List Server.MPlayer),
      (∃ p ∈ l, p.alive = true) →
      (∀ p ∈ l, p.alive = true → p.rank = none) →
      ((Server.markFirstAlive l).filterMap Server.MPlayer.rank).Perm
          (1 :: l.filterMap Server.MPlayer.rank)
      ∧ ((Server.markFirstAlive l).filter Server.MPlayer.alive).length
          = (l.filter Server.MPlayer.alive).length - 1 := by
  intro l
  induction l with
  | nil => intro hex _; simp at hex
  | cons q t ih =>
    intro hex hall
    unfold Server.markFirstAlive
    cases hq : q.alive with
    | true =>
      rw [if_pos rfl]
      have hqnone : q.rank = none := hall q (List.mem_cons_self q t) hq
      constructor
      · rw [List.filterMap_cons_some (show Server.MPlayer.rank
            { q with alive := false, rank := some 1 } = some 1 from rfl),
          List.filterMap_cons_none hqnone]
      · rw [List.filter_cons_of_neg (by simp), List.filter_cons_of_pos (by simp [hq])]
        simp
    | false =>
      rw [if_neg (by simp)]
      have hex' : ∃ p ∈ t, p.alive = true := by
        rcases hex with ⟨p, hp, hal⟩
        rcases List.mem_cons.mp hp with rfl | hp
        · rw [hq] at hal; cases hal
        · exact ⟨p, hp, hal⟩
      have hall' : ∀ p ∈ t, p.alive = true → p.rank = none :=
        fun p hp => hall p (List.mem_cons_of_mem q hp)
      obtain ⟨hperm, hcount⟩ := ih hex' hall'
      constructor
      · cases hqr : q.rank with
        | none =>
          rw [List.filterMap_cons_none hqr, List.filterMap_cons_none hqr]
          exact hperm
        | some r =>
          rw [List.filterMap_cons_some hqr, List.filterMap_cons_some hqr]
          exact (hperm.cons r).trans (List.Perm.swap 1 r _)
      · rw [List.filter_cons_of_neg (by simp [hq]), List.filter_cons_of_neg (by simp [hq])]
        exact hcount

lemma markFirstAlive_get?_of_dead :
    ∀ (l : List Server.MPlayer) (i : Nat) (q : Server.MPlayer),
      l.get? i = some q → q.alive = false →
      (Server.markFirstAlive l).get? i = some q := by
  intro l
  induction l with
  | nil => intro i q hget _; simp at hget
  | cons p t ih =>
    intro i q hget hdead
    unfold Server.markFirstAlive
    cases hp : p.alive with
    | true =>
      rw [if_pos rfl]
      cases i with
      | zero =>
        simp only [List.get?_cons_zero, Option.some.injEq] at hget
        subst hget
        rw [hp] at hdead
        cases hdead
      | succ j =>
        rw [List.get?_cons_succ] at hget
        rw [List.get?_cons_succ]
        exact hget
    | false =>
      rw [if_neg (by simp)]
      cases i with
      | zero =>
        simpa using hget
      | succ j =>
        rw [List.get?_cons_succ] at hget
        rw [List.get?_cons_succ]
        exact ih j q hget hdead

lemma markFirstAlive_get?_first :
    ∀ (l : List Server.MPlayer) (i : Nat) (p : Server.MPlayer),
      l.get? i = some p → p.alive = true →
      (∀ j q, j < i → l.get? j = some q → q.alive = false) →
      (Server.markFirstAlive l).get? i
        = some { p with alive := false, rank := some 1 } := by
  intro l
  induction l with
  | nil => intro i p hget _ _; simp at hget
  | cons h t ih =>
    intro i p hget halive hfirst
    unfold Server.markFirstAlive
    cases i with
    | zero =>
      simp only [List.get?_cons_zero, Option.some.injEq] at hget
      subst hget
      rw [if_pos halive]
      rfl
    | succ j =>
      rw [List.get?_cons_succ] at hget
      have hh : h.alive = false := hfirst 0 h (Nat.succ_pos j) rfl
      rw [if_neg (by simp [hh])]
      
      rw [List.get?_cons_succ]
      exact ih j p hget halive (fun k q hk hq =>
        hfirst (k + 1) q (Nat.succ_lt_succ hk) (by rwa [List.get?_cons_succ]))

lemma aliveCount_zero_all_dead {room : Server.MRoom}
    (h : Server.aliveCount room = 0) :
    ∀ p ∈ room.players, p.alive = false := by
  intro p hp
  by_contra hal
  rw [Bool.not_eq_false] at hal
  have : p ∈ room.players.filter Server.MPlayer.alive := List.mem_filter.mpr ⟨hp, hal⟩
  have hpos := List.length_pos.mpr (List.ne_nil_of_mem this)
  unfold Server.aliveCount at h
  omega

lemma startRoom_inv {M : Nat} (hM : 2 ≤ M) : Server.PlayingInv M (Server.startRoom M) := by
  unfold Server.PlayingInv Server.startRoom Server.aliveCount Server.ranksOf
  refine ⟨List.length_replicate _ _, rfl, ?_, hM, ?_, ?_⟩
  · simp [List.filter_replicate]
  · intro p hp _
    rw [List.eq_of_mem_replicate hp]
  · simp [List.filterMap_replicate]

lemma gameOverReport_inv {M : Nat} {room : Server.MRoom}
    (h : Server.PlayingInv M room) (i : Nat) :
    Server.PlayingInv M (Server.gameOverReport room i)
    ∨ Server.FinishedInv M (Server.gameOverReport room i) := by
  obtain ⟨hlen, hstat, hcount, htwo, hnone, hperm⟩ := h
  unfold Server.gameOverReport
  cases hget : room.players.get? i with
  | none => exact Or.inl ⟨hlen, hstat, hcount, htwo, hnone, hperm⟩
  | some p =>
    dsimp only
    cases hal : p.alive with
    | false =>
      rw [if_neg (by simp)]
      exact Or.inl ⟨hlen, hstat, hcount, htwo, hnone, hperm⟩
    | true =>
      rw [if_pos rfl]
      have hpmem : p ∈ room.players := List.get?_mem hget
      have hpnone : p.rank = none := hnone p hpmem hal
      have haM : room.alivePlayers ≤ M := by
        have hle : Server.aliveCount room ≤ room.players.length :=
          List.length_filter_le _ _
        omega
      have hperm1 : ((room.players.set i
            { p with alive := false, rank := some room.alivePlayers }).filterMap
              Server.MPlayer.rank).Perm
          (room.alivePlayers :: room.players.filterMap Server.MPlayer.rank) :=
        rank_set_perm room.players i p _ hget hpnone rfl
      have hcount1 : ((room.players.set i
            { p with alive := false, rank := some room.alivePlayers }).filter
              Server.MPlayer.alive).length
          = room.alivePlayers - 1 := by
        rw [alive_set_count room.players i p _ hget hal rfl]
        unfold Server.aliveCount at hcount
        omega
      have hnone1 : ∀ q ∈ room.players.set i
            { p with alive := false, rank := some room.alivePlayers },
          q.alive = true → q.rank = none := by
        intro q hq hqal
        rcases List.mem_or_eq_of_mem_set hq with hq | rfl
        · exact hnone q hq hqal
        · cases hqal
      have hlen1 : (room.players.set i
            { p with alive := false, rank := some room.alivePlayers }).length = M := by
        rw [List.length_set]
        exact hlen
      unfold Server.checkGameEnd
      dsimp only
      by_cases hend : room.alivePlayers - 1 ≤ 1
      · rw [if_pos ⟨hend, hstat⟩]
        right
        have ha2 : room.alivePlayers = 2 := by omega
        have hex : ∃ q ∈ room.players.set i
              { p with alive := false, rank := some room.alivePlayers },
            q.alive = true := by
          have hposc : 0 < ((room.players.set i
              { p with alive := false, rank := some room.alivePlayers }).filter
                Server.MPlayer.alive).length := by
            rw [hcount1, ha2]
            omega
          obtain ⟨q, hqf⟩ := List.exists_mem_of_length_pos hposc
          exact ⟨q, (List.mem_filter.mp hqf).1, (List.mem_filter.mp hqf).2⟩
        obtain ⟨hmperm, hmcount⟩ := markFirstAlive_spec _ hex hnone1
        refine ⟨?_, rfl, ?_, ?_⟩
        · unfold Server.MRoom.players
          rw [markFirstAlive_length]
          exact hlen1
        · unfold Server.aliveCount
          dsimp only
          rw [hmcount, hcount1, ha2]
        · unfold Server.ranksOf
          dsimp only
          have hchain := (hmperm.trans (hperm1.cons 1)).trans
            ((hperm.cons room.alivePlayers).cons 1)
          have hfinal : (1 :: room.alivePlayers ::
              List.range' (room.alivePlayers + 1) (M - room.alivePlayers))
              = List.range' 1 M := by
            rw [ha2]
            obtain ⟨k, hk⟩ : ∃ k, M = k + 2 := ⟨M - 2, by omega⟩
            subst hk
            simp only [Nat.add_sub_cancel]
            rfl
          rw [← hfinal]
          exact hchain
      · rw [if_neg (by
          intro hcon
          exact hend hcon.1)]
        left
        unfold Server.PlayingInv
        dsimp only
        refine ⟨hlen1, hstat, ?_, by omega, hnone1, ?_⟩
        · unfold Server.aliveCount
          dsimp only
          exact hcount1
        · unfold Server.ranksOf
          dsimp only
          have hrange : List.range' (room.alivePlayers - 1 + 1) (M - (room.alivePlayers - 1))
              = room.alivePlayers
                :: List.range' (room.alivePlayers + 1) (M - room.alivePlayers) := by
            have h1 : room.alivePlayers - 1 + 1 = room.alivePlayers := by omega
            have h2 : M - (room.alivePlayers - 1) = (M - room.alivePlayers) + 1 := by omega
            rw [h1, h2]
            rfl
          rw [hrange]
          exact hperm1.trans (hperm.cons room.alivePlayers)

lemma gameOverReport_finished {M : Nat} {room : Server.MRoom}
    (h : Server.FinishedInv M room) (i : Nat) :
    Server.gameOverReport room i = room := by
  unfold Server.gameOverReport
  cases hget : room.players.get? i with
  | none => rfl
  | some p =>
    dsimp only
    have hdead : p.alive = false :=
      aliveCount_zero_all_dead h.2.2.1 p (List.get?_mem hget)
    rw [if_neg (by simp [hdead])]

lemma runReports_inv {M : Nat} :
    ∀ (reports : List Nat) (room : Server.MRoom),
      Server.PlayingInv M room ∨ Server.FinishedInv M room →
      Server.PlayingInv M (Server.runReports room reports)
      ∨ Server.FinishedInv M (Server.runReports room reports) := by
  intro reports
  induction reports with
  | nil => intro room h; exact h
  | cons r rest ih =>
    intro room h
    unfold Server.runReports
    rw [List.foldl_cons]
    rcases h with h | h
    · exact ih _ (gameOverReport_inv h r)
    · rw [gameOverReport_finished h r]
      exact ih _ (Or.inr h)

/-- C2: starting from an `M`-player room in playing state, each `game_over`
report of a still-alive player assigns that player the alive-count before
decrementing as its rank; when the alive count drops to ≤ 1 the first
remaining alive player gets rank 1 and the room finishes; and over any
complete match the assigned ranks are exactly `{1, …, M}` with no
duplicates or gaps. -/
theorem elimination_ranking (M : Nat) (hM : 2 ≤ M) (reports : List Nat)
    (hend : (Server.runReports (Server.startRoom M) reports).status
      = Server.RStatus.finished) :
    (Server.ranksOf (Server.runReports (Server.startRoom M) reports)).Perm
        (List.range' 1 M)
    ∧ (∀ (room : Server.MRoom) (i : Nat) (p : Server.MPlayer),
        room.players.get? i = some p → p.alive = true →
        (Server.gameOverReport room i).players.get? i
          = some { p with alive := false, rank := some room.alivePlayers })
    ∧ (∀ (room : Server.MRoom) (i : Nat) (p : Server.MPlayer),
        room.status = Server.RStatus.playing → room.alivePlayers ≤ 1 →
        room.players.get? i = some p → p.alive = true →
        (∀ j q, j < i → room.players.get? j = some q → q.alive = false) →
        (Server.checkGameEnd room).status = Server.RStatus.finished ∧
          (Server.checkGameEnd room).players.get? i
            = some { p with alive := false, rank := some 1 }) := by
  refine ⟨?_, ?_, ?_⟩
  · have hrun := runReports_inv reports (Server.startRoom M) (Or.inl (startRoom_inv hM))
    rcases hrun with hp | hf
    · rw [hp.2.1] at hend
      cases hend
    · exact hf.2.2.2
  · intro room i p hget halive
    unfold Server.gameOverReport
    rw [hget]
    dsimp only
    rw [if_pos halive]
    obtain ⟨hi, -⟩ := List.get?_eq_some.mp hget
    have hset : (room.players.set i
        { p with alive := false, rank := some room.alivePlayers }).get? i
        = some { p with alive := false, rank := some room.alivePlayers } :=
      List.get?_set_eq_of_lt _ hi
    unfold Server.checkGameEnd
    dsimp only
    by_cases hcond : room.alivePlayers - 1 ≤ 1 ∧ room.status = Server.RStatus.playing
    · rw [if_pos hcond]
      exact markFirstAlive_get?_of_dead _ i _ hset rfl
    · rw [if_neg hcond]
      exact hset
  · intro room i p hstat hone hget halive hfirst
    unfold Server.checkGameEnd
    rw [if_pos ⟨hone, hstat⟩]
    exact ⟨rfl, markFirstAlive_get?_first _ i p hget halive hfirst⟩

/-- Witness for C2: a 3-player match where the players at roster indices 1
then 2 top out; the final ranks are a permutation of {1,2,3}. -/
theorem elimination_ranking_witness :
    (Server.runReports (Server.startRoom 3) [1, 2]).status = Server.RStatus.finished
    ∧ (Server.ranksOf (Server.runReports (Server.startRoom 3) [1, 2])).Perm
        (List.range' 1 3) :=
  ⟨by decide, (elimination_ranking 3 (by omega) [1, 2] (by decide)).1⟩

lemma getD_set_ne {α : Type} {l : List α} {r i : Nat} (row : α) (h : i ≠ r) (d : α) :
    (l.set r row).getD i d = l.getD i d := by
  rw [List.getD_eq_getElem?_getD, List.getElem?_set_ne (Ne.symm h),
    ← List.getD_eq_getElem?_getD]

lemma getD_set_self {α : Type} {l : List α} {r : Nat} (row : α) (h : r < l.length)
    (d : α) : (l.set r row).getD r d = row := by
  rw [List.getD_eq_getElem?_getD, List.getElem?_set_self h]
  rfl

lemma getCell_setCell_ne_row {m : Tetris.Mat} {i r : Nat} (c v : Nat) (h : i ≠ r)
    (j : Nat) : Tetris.getCell (Tetris.setCell m r c v) i j = Tetris.getCell m i j := by
  unfold Tetris.getCell Tetris.setCell
  rw [getD_set_ne _ h]

lemma getCell_setCell_ne_col {m : Tetris.Mat} {j c : Nat} (r v : Nat) (h : j ≠ c)
    (i : Nat) : Tetris.getCell (Tetris.setCell m r c v) i j = Tetris.getCell m i j := by
  by_cases hir : i = r
  · subst hir
    by_cases hlt : i < m.length
    · unfold Tetris.getCell Tetris.setCell
      rw [getD_set_self _ hlt, getD_set_ne _ h]
    · unfold Tetris.setCell
      rw [List.set_eq_of_length_le (by omega)]
  · exact getCell_setCell_ne_row c v hir j

lemma getCell_setCell_self {m : Tetris.Mat} {r c : Nat} (v : Nat) (hr : r < m.length)
    (hc : c < (m.getD r []).length) :
    Tetris.getCell (Tetris.setCell m r c v) r c = v := by
  unfold Tetris.getCell Tetris.setCell
  rw [getD_set_self _ hr, getD_set_self _ hc]

lemma getCell_swapCells_fst {m : Tetris.Mat} {x y : Nat} (hxy : x ≠ y)
    (hx : x < m.length) (hrow : y < (m.getD x []).length) :
    Tetris.getCell (Tetris.swapCells m x y) x y = Tetris.getCell m y x := by
  unfold Tetris.swapCells
  dsimp only
  rw [getCell_setCell_ne_row _ _ hxy]
  exact getCell_setCell_self _ hx hrow

lemma getCell_swapCells_snd {m : Tetris.Mat} {x y : Nat}
    (hy : y < m.length) (hrow : x < (m.getD y []).length) :
    Tetris.getCell (Tetris.swapCells m x y) y x = Tetris.getCell m x y := by
  unfold Tetris.swapCells
  dsimp only
  have hs := setCell_shape m x y (Tetris.getCell m y x)
  exact getCell_setCell_self _ (by rw [hs.1]; exact hy) (by rw [hs.2 y]; exact hrow)

lemma getCell_swapCells_other {m : Tetris.Mat} {x y i j : Nat}
    (h1 : ¬(i = x ∧ j = y)) (h2 : ¬(i = y ∧ j = x)) :
    Tetris.getCell (Tetris.swapCells m x y) i j = Tetris.getCell m i j := by
  unfold Tetris.swapCells
  dsimp only
  by_cases hiy : i = y
  · subst hiy
    have hjx : j ≠ x := fun hc => h2 ⟨rfl, hc⟩
    rw [getCell_setCell_ne_col _ _ hjx]
    by_cases hix : i = x
    · subst hix
      have hjy : j ≠ i := fun hc => h1 ⟨rfl, hc ▸ rfl⟩
      exact getCell_setCell_ne_col _ _ (fun hc => h1 ⟨rfl, hc⟩) _
    · exact getCell_setCell_ne_row _ _ hix _
  · rw [getCell_setCell_ne_row _ _ hiy]
    by_cases hix : i = x
    · subst hix
      have hjy : j ≠ y := fun hc => h1 ⟨rfl, hc⟩
      exact getCell_setCell_ne_col _ _ hjy _
    · exact getCell_setCell_ne_row _ _ hix _

lemma swapCells_shape (m : Tetris.Mat) (x y : Nat) :
    (Tetris.swapCells m x y).length = m.length
    ∧ ∀ i, ((Tetris.swapCells m x y).getD i []).length = (m.getD i []).length := by
  unfold Tetris.swapCells
  dsimp only
  have h1 := setCell_shape m x y (Tetris.getCell m y x)
  have h2 := setCell_shape (Tetris.setCell m x y (Tetris.getCell m y x)) y x
    (Tetris.getCell m x y)
  exact ⟨h2.1.trans h1.1, fun i => (h2.2 i).trans (h1.2 i)⟩

lemma innerFoldSpec (m : Tetris.Mat)
    (hsq : ∀ i < m.length, (m.getD i []).length = m.length)
    (k : Nat) (hk : k < m.length) :
    ∀ (X : Nat), X ≤ k → ∀ (A : Tetris.Mat),
      A.length = m.length →
      (∀ i, (A.getD i []).length = (m.getD i []).length) →
      (∀ i j, i < m.length → j < m.length →
        Tetris.getCell A i j
          = if i < k ∧ j < k ∧ i ≠ j then Tetris.getCell m j i
            else Tetris.getCell m i j) →
      (((List.range X).foldl (fun acc2 x => Tetris.swapCells acc2 x k) A).length
          = m.length
      ∧ (∀ i, (((List.range X).foldl (fun acc2 x => Tetris.swapCells acc2 x k) A).getD
            i []).length = (m.getD i []).length)
      ∧ ∀ i j, i < m.length → j < m.length →
          Tetris.getCell
              ((List.range X).foldl (fun acc2 x => Tetris.swapCells acc2 x k) A) i j
            = if (i < k ∧ j = k ∧ i < X) ∨ (j < k ∧ i = k ∧ j < X)
                ∨ (i < k ∧ j < k ∧ i ≠ j)
              then Tetris.getCell m j i else Tetris.getCell m i j) := by
  intro X
  induction X with
  | zero =>
    intro _ A hAlen hArows hAcells
    simp only [List.range_zero, List.foldl_nil]
    refine ⟨hAlen, hArows, ?_⟩
    intro i j hi hj
    rw [hAcells i j hi hj]
    exact if_congr (by omega) rfl rfl
  | succ X ih =>
    intro hX A hAlen hArows hAcells
    obtain ⟨hlen, hrows, hcells⟩ := ih (by omega) A hAlen hArows hAcells
    rw [List.range_succ, List.foldl_append, List.foldl_cons, List.foldl_nil]
    have hXk : X < k := by omega
    have hXn : X < m.length := by omega
    have hswap := swapCells_shape
      ((List.range X).foldl (fun acc2 x => Tetris.swapCells acc2 x k) A) X k
    refine ⟨hswap.1.trans hlen, fun i => (hswap.2 i).trans (hrows i), ?_⟩
    intro i j hi hj
    have hxlen : X < ((List.range X).foldl
        (fun acc2 x => Tetris.swapCells acc2 x k) A).length := by
      rw [hlen]; exact hXn
    have hklen : k < ((List.range X).foldl
        (fun acc2 x => Tetris.swapCells acc2 x k) A).length := by
      rw [hlen]; exact hk
    have hxrow : k < (((List.range X).foldl
        (fun acc2 x => Tetris.swapCells acc2 x k) A).getD X []).length := by
      rw [hrows X, hsq X hXn]; exact hk
    have hkrow : X < (((List.range X).foldl
        (fun acc2 x => Tetris.swapCells acc2 x k) A).getD k []).length := by
      rw [hrows k, hsq k hk]; exact hXn
    by_cases h1 : i = X ∧ j = k
    · obtain ⟨rfl, rfl⟩ := h1
      rw [getCell_swapCells_fst (by omega) hxlen hxrow]
      rw [hcells j i hj hi]
      rw [if_neg (by omega), if_pos (by omega)]
    · by_cases h2 : i = k ∧ j = X
      · obtain ⟨rfl, rfl⟩ := h2
        rw [getCell_swapCells_snd hklen hkrow]
        rw [hcells j i hj hi]
        rw [if_neg (by omega), if_pos (by omega)]
      · rw [getCell_swapCells_other h1 h2]
        rw [hcells i j hi hj]
        exact if_congr (by omega) rfl rfl

lemma outerFoldSpec (m : Tetris.Mat)
    (hsq : ∀ i < m.length, (m.getD i []).length = m.length) :
    ∀ (K : Nat), K ≤ m.length →
      (((List.range K).foldl
          (fun acc y => (List.range y).foldl
            (fun acc2 x => Tetris.swapCells acc2 x y) acc) m).length = m.length
      ∧ (∀ i, (((List.range K).foldl
          (fun acc y => (List.range y).foldl
            (fun acc2 x => Tetris.swapCells acc2 x y) acc) m).getD i []).length
            = (m.getD i []).length)
      ∧ ∀ i j, i < m.length → j < m.length →
          Tetris.getCell
              ((List.range K).foldl
                (fun acc y => (List.range y).foldl
                  (fun acc2 x => Tetris.swapCells acc2 x y) acc) m) i j
            = if i < K ∧ j < K ∧ i ≠ j then Tetris.getCell m j i
              else Tetris.getCell m i j) := by
  intro K
  induction K with
  | zero =>
    intro _
    simp only [List.range_zero, List.foldl_nil]
    refine ⟨trivial, fun i => trivial, ?_⟩
    intro i j _ _
    rw [if_neg (by omega)]
  | succ K ih =>
    intro hK
    obtain ⟨hlen, hrows, hcells⟩ := ih (by omega)
    rw [List.range_succ, List.foldl_append, List.foldl_cons, List.foldl_nil]
    have hKn : K < m.length := by omega
    obtain ⟨hlen2, hrows2, hcells2⟩ := innerFoldSpec m hsq K hKn K le_rfl _
      hlen hrows hcells
    refine ⟨hlen2, hrows2, ?_⟩
    intro i j hi hj
    rw [hcells2 i j hi hj]
    exact if_congr (by omega) rfl rfl

lemma transposeLoop_spec (m : Tetris.Mat)
    (hsq : ∀ i < m.length, (m.getD i []).length = m.length) :
    (Tetris.transposeLoop m).length = m.length
    ∧ (∀ i, ((Tetris.transposeLoop m).getD i []).length = (m.getD i []).length)
    ∧ ∀ i j, i < m.length → j < m.length →
        Tetris.getCell (Tetris.transposeLoop m) i j = Tetris.getCell m j i := by
  obtain ⟨hlen, hrows, hcells⟩ := outerFoldSpec m hsq m.length le_rfl
  refine ⟨hlen, hrows, ?_⟩
  intro i j hi hj
  have h := hcells i j hi hj
  by_cases hij : i = j
  · subst hij
    rw [Tetris.transposeLoop, h, if_neg (by omega)]
  · rw [Tetris.transposeLoop, h, if_pos ⟨hi, hj, hij⟩]
lemma rotateMatrix_pos_eq (m : Tetris.Mat) :
    Tetris.rotateMatrix m 1 = (Tetris.transposeLoop m).map List.reverse := by
  unfold Tetris.rotateMatrix
  rw [if_pos (by norm_num : (1 : Int) > 0)]

lemma rotateMatrix_neg_eq (m : Tetris.Mat) :
    Tetris.rotateMatrix m (-1) = (Tetris.transposeLoop m).reverse := by
  unfold Tetris.rotateMatrix
  rw [if_neg (by norm_num : ¬((-1 : Int) > 0))]

lemma getD_map_reverse (l : Tetris.Mat) (i : Nat) (hi : i < l.length) :
    (l.map List.reverse).getD i [] = (l.getD i []).reverse := by
  rw [List.getD_eq_getElem?_getD, List.getElem?_map, List.getElem?_eq_getElem hi]
  rw [List.getD_eq_getElem _ _ hi]
  rfl

lemma getD_rev {α : Type} (l : List α) (d : α) (i : Nat) (hi : i < l.length) :
    l.reverse.getD i d = l.getD (l.length - 1 - i) d := by
  rw [List.getD_eq_getElem?_getD, List.getElem?_reverse hi,
    ← List.getD_eq_getElem?_getD]

lemma rotateMatrix_pos_sq (m : Tetris.Mat)
    (hsq : ∀ i < m.length, (m.getD i []).length = m.length) :
    (Tetris.rotateMatrix m 1).length = m.length
    ∧ ∀ i < m.length, ((Tetris.rotateMatrix m 1).getD i []).length = m.length := by
  obtain ⟨hTlen, hTrows, -⟩ := transposeLoop_spec m hsq
  rw [rotateMatrix_pos_eq]
  constructor
  · rw [List.length_map]
    exact hTlen
  · intro i hi
    rw [getD_map_reverse _ _ (by rw [hTlen]; exact hi)]
    rw [List.length_reverse, hTrows i, hsq i hi]

lemma rotateMatrix_neg_sq (m : Tetris.Mat)
    (hsq : ∀ i < m.length, (m.getD i []).length = m.length) :
    (Tetris.rotateMatrix m (-1)).length = m.length
    ∧ ∀ i < m.length, ((Tetris.rotateMatrix m (-1)).getD i []).length = m.length := by
  obtain ⟨hTlen, hTrows, -⟩ := transposeLoop_spec m hsq
  rw [rotateMatrix_neg_eq]
  constructor
  · rw [List.length_reverse]
    exact hTlen
  · intro i hi
    rw [getD_rev _ _ _ (by rw [hTlen]; exact hi)]
    rw [hTlen]
    rw [hTrows _, hsq _ (by omega)]

lemma rotateMatrix_pos_get (m : Tetris.Mat)
    (hsq : ∀ i < m.length, (m.getD i []).length = m.length)
    (i j : Nat) (hi : i < m.length) (hj : j < m.length) :
    Tetris.getCell (Tetris.rotateMatrix m 1) i j
      = Tetris.getCell m (m.length - 1 - j) i := by
  obtain ⟨hTlen, hTrows, hTcells⟩ := transposeLoop_spec m hsq
  rw [rotateMatrix_pos_eq]
  unfold Tetris.getCell
  rw [getD_map_reverse _ _ (by rw [hTlen]; exact hi)]
  have hrowlen : ((Tetris.transposeLoop m).getD i []).length = m.length := by
    rw [hTrows i, hsq i hi]
  rw [getD_rev _ _ _ (by rw [hrowlen]; exact hj)]
  rw [hrowlen]
  have hcell := hTcells i (m.length - 1 - j) hi (by omega)
  unfold Tetris.getCell at hcell
  exact hcell

lemma rotateMatrix_neg_get (m : Tetris.Mat)
    (hsq : ∀ i < m.length, (m.getD i []).length = m.length)
    (i j : Nat) (hi : i < m.length) (hj : j < m.length) :
    Tetris.getCell (Tetris.rotateMatrix m (-1)) i j
      = Tetris.getCell m j (m.length - 1 - i) := by
  obtain ⟨hTlen, hTrows, hTcells⟩ := transposeLoop_spec m hsq
  rw [rotateMatrix_neg_eq]
  unfold Tetris.getCell
  rw [getD_rev _ _ _ (by rw [hTlen]; exact hi)]
  rw [hTlen]
  have hcell := hTcells (m.length - 1 - i) j (by omega) hj
  unfold Tetris.getCell at hcell
  exact hcell

lemma mat_ext {A B : Tetris.Mat} (hlen : A.length = B.length)
    (hrows : ∀ i, i < A.length → (A.getD i []).length = (B.getD i []).length)
    (hcells : ∀ i j, i < A.length → j < (A.getD i []).length →
      Tetris.getCell A i j = Tetris.getCell B i j) :
    A = B := by
  apply List.ext_getElem hlen
  intro i h1 h2
  have hrl : (A.getD i []).length = (B.getD i []).length := hrows i h1
  rw [List.getD_eq_getElem _ _ h1, List.getD_eq_getElem _ _ h2] at hrl
  apply List.ext_getElem hrl
  intro j hj1 hj2
  have hc := hcells i j h1 (by rw [List.getD_eq_getElem _ _ h1]; exact hj1)
  unfold Tetris.getCell at hc
  rw [List.getD_eq_getElem _ _ h1, List.getD_eq_getElem _ _ h2] at hc
  rw [List.getD_eq_getElem _ _ hj1, List.getD_eq_getElem _ _ hj2] at hc
  exact hc

lemma rotInverse_pos (m : Tetris.Mat)
    (hsq : ∀ i < m.length, (m.getD i []).length = m.length) :
    Tetris.rotateMatrix (Tetris.rotateMatrix m 1) (-1) = m := by
  obtain ⟨hRlen, hRrows⟩ := rotateMatrix_pos_sq m hsq
  have hRsq : ∀ i < (Tetris.rotateMatrix m 1).length,
      ((Tetris.rotateMatrix m 1).getD i []).length
        = (Tetris.rotateMatrix m 1).length := by
    intro i hi
    rw [hRlen] at hi ⊢
    exact hRrows i hi
  obtain ⟨hLlen, hLrows⟩ := rotateMatrix_neg_sq _ hRsq
  apply mat_ext
  · rw [hLlen, hRlen]
  · intro i hi
    rw [hLlen, hRlen] at hi
    rw [hLrows i (by rw [hRlen]; exact hi), hRlen, hsq i hi]
  · intro i j hi hj
    rw [hLlen, hRlen] at hi
    rw [hLrows i (by rw [hRlen]; exact hi), hRlen] at hj
    rw [rotateMatrix_neg_get _ hRsq i j (by rw [hRlen]; exact hi) (by rw [hRlen]; exact hj)]
    rw [hRlen]
    rw [rotateMatrix_pos_get m hsq j (m.length - 1 - i) hj (by omega)]
    have hidx : m.length - 1 - (m.length - 1 - i) = i := by omega
    rw [hidx]

lemma rotInverse_neg (m : Tetris.Mat)
    (hsq : ∀ i < m.length, (m.getD i []).length = m.length) :
    Tetris.rotateMatrix (Tetris.rotateMatrix m (-1)) 1 = m := by
  obtain ⟨hRlen, hRrows⟩ := rotateMatrix_neg_sq m hsq
  have hRsq : ∀ i < (Tetris.rotateMatrix m (-1)).length,
      ((Tetris.rotateMatrix m (-1)).getD i []).length
        = (Tetris.rotateMatrix m (-1)).length := by
    intro i hi
    rw [hRlen] at hi ⊢
    exact hRrows i hi
  obtain ⟨hLlen, hLrows⟩ := rotateMatrix_pos_sq _ hRsq
  apply mat_ext
  · rw [hLlen, hRlen]
  · intro i hi
    rw [hLlen, hRlen] at hi
    rw [hLrows i (by rw [hRlen]; exact hi), hRlen, hsq i hi]
  · intro i j hi hj
    rw [hLlen, hRlen] at hi
    rw [hLrows i (by rw [hRlen]; exact hi), hRlen] at hj
    rw [rotateMatrix_pos_get _ hRsq i j (by rw [hRlen]; exact hi) (by rw [hRlen]; exact hj)]
    rw [hRlen]
    rw [rotateMatrix_neg_get m hsq (m.length - 1 - j) i (by omega) hi]
    have hidx : m.length - 1 - (m.length - 1 - j) = j := by omega
    rw [hidx]
lemma isSquare_index {m : Tetris.Mat} (h : Tetris.IsSquare m) :
    ∀ i < m.length, (m.getD i []).length = m.length := by
  intro i hi
  rw [List.getD_eq_getElem _ _ hi]
  exact h _ (List.getElem_mem hi)

lemma kick_spec :
    ∀ (fm : Nat) (board piece : Tetris.Mat) (dir x y origX offset : Int)
      (h : Tetris.KickInv (piece.getD 0 []).length offset),
      (piece.getD 0 []).length + 2 - offset.natAbs < fm →
      offset ≠ 0 →
      (0 < offset → offset = 1 - 2 * (x - origX)) →
      (offset < 0 → offset = -2 * (x - origX)) →
      Tetris.kick board piece dir x y origX offset h
          = (Tetris.rotateMatrix piece (-dir), origX)
      ∨ ∃ x', Tetris.kick board piece dir x y origX offset h = (piece, x')
          ∧ Tetris.collide board piece x' y = false
          ∧ (1 ≤ (piece.getD 0 []).length →
              (x' - origX).natAbs ≤ (piece.getD 0 []).length) := by
  intro fm
  induction fm with
  | zero =>
    intro board piece dir x y origX offset h hfm hnz hd1 hd2
    exact absurd hfm (Nat.not_lt_zero _)
  | succ fm ih =>
    intro board piece dir x y origX offset h hfm hnz hd1 hd2
    rw [Tetris.kick]
    by_cases hcol : Tetris.collide board piece x y = true
    · rw [if_pos hcol]
      by_cases hg : Tetris.nextOffset offset > ((piece.getD 0 []).length : Int)
      · rw [dif_pos hg]
        exact Or.inl rfl
      · rw [dif_neg hg]
        have hkn := Tetris.kickInv_next h hg
        have hlt2 := hkn.2
        have hna := Tetris.natAbs_nextOffset offset
        rcases lt_trichotomy offset 0 with hlt | heq | hgt
        · have hno := Tetris.nextOffset_of_nonpos (le_of_lt hlt)
          have hd := hd2 hlt
          exact ih board piece dir (x + offset) y origX (Tetris.nextOffset offset)
            hkn.1 (by omega) (by omega) (by omega) (by omega)
        · exact absurd heq hnz
        · have hno := Tetris.nextOffset_of_pos hgt
          have hd := hd1 hgt
          exact ih board piece dir (x + offset) y origX (Tetris.nextOffset offset)
            hkn.1 (by omega) (by omega) (by omega) (by omega)
    · rw [if_neg hcol]
      have hcf : Tetris.collide board piece x y = false := by
        simpa using hcol
      refine Or.inr ⟨x, rfl, hcf, ?_⟩
      intro hw
      rcases lt_trichotomy offset 0 with hlt | heq | hgt
      · have hd := hd2 hlt
        have h2 := h.2 hlt
        omega
      · exact absurd heq hnz
      · have hd := hd1 hgt
        have h1 := h.1 hgt
        omega

/-- C6: `TetrisGame.rotate(dir)` on a square piece matrix either ends with
the rotated piece at some column `x'` at which it does not collide, displaced
from the original column by at most the piece's width, or it is a complete
no-op: the matrix is rotated back to its original value and `pos.x` is
restored. -/
theorem rotate_wall_kick (board piece : Tetris.Mat) (x y dir : Int)
    (hsq : Tetris.IsSquare piece) (hdir : dir = 1 ∨ dir = -1) :
    (∃ x', Tetris.rotateOp board piece x y dir
          = (Tetris.rotateMatrix piece dir, x')
        ∧ Tetris.collide board (Tetris.rotateMatrix piece dir) x' y = false
        ∧ (1 ≤ ((Tetris.rotateMatrix piece dir).getD 0 []).length →
            (x' - x).natAbs ≤ ((Tetris.rotateMatrix piece dir).getD 0 []).length))
    ∨ Tetris.rotateOp board piece x y dir = (piece, x) := by
  unfold Tetris.rotateOp
  dsimp only
  have hspec := kick_spec ((((Tetris.rotateMatrix piece dir).getD 0 []).length) + 3)
    board (Tetris.rotateMatrix piece dir) dir x y x 1
    (by constructor <;> intro h <;> omega)
    (by omega)
    (by omega)
    (by intro _; ring)
    (by omega)
  rcases hspec with hrev | ⟨x', heq, hcol, hbound⟩
  · right
    rw [hrev]
    rcases hdir with rfl | rfl
    · rw [rotInverse_pos piece (isSquare_index hsq)]
    · have hneg : (-(-1 : Int)) = 1 := by norm_num
      rw [hneg, rotInverse_neg piece (isSquare_index hsq)]
  · left
    exact ⟨x', heq, hcol, hbound⟩

/-- Witness for C6: the empty board, the T piece at column 3, row 0,
clockwise rotation. -/
theorem rotate_wall_kick_witness :
    Tetris.IsSquare [[0,1,0],[1,1,1],[0,0,0]] ∧ ((1 : Int) = 1 ∨ (1 : Int) = -1) ∧
    ((∃ x', Tetris.rotateOp Tetris.createBoard [[0,1,0],[1,1,1],[0,0,0]] 3 0 1
          = (Tetris.rotateMatrix [[0,1,0],[1,1,1],[0,0,0]] 1, x')
        ∧ Tetris.collide Tetris.createBoard
            (Tetris.rotateMatrix [[0,1,0],[1,1,1],[0,0,0]] 1) x' 0 = false
        ∧ (1 ≤ ((Tetris.rotateMatrix [[0,1,0],[1,1,1],[0,0,0]] 1).getD 0 []).length →
            (x' - 3).natAbs
              ≤ ((Tetris.rotateMatrix [[0,1,0],[1,1,1],[0,0,0]] 1).getD 0 []).length))
      ∨ Tetris.rotateOp Tetris.createBoard [[0,1,0],[1,1,1],[0,0,0]] 3 0 1
          = ([[0,1,0],[1,1,1],[0,0,0]], 3)) :=
  ⟨by decide, Or.inl rfl,
    rotate_wall_kick Tetris.createBoard [[0,1,0],[1,1,1],[0,0,0]] 3 0 1
      (by decide) (Or.inl rfl)⟩
